import Mathlib

/-!
# ts3-discord-status: a shallow embedding of `src/index.js`

The bot mirrors the occupancy of a TeamSpeak server into a Discord message
(the status embed) and into the name of a Discord channel (the count label).

Modelling conventions.

* A JavaScript string is the list of its UTF-16 code units (`JSStr`), so that
  `length`, `substring`, `includes` and `JSON.stringify` act on code units as
  they do in JavaScript.
* Timestamps (`Date.now()`) are integers, in milliseconds.
* Every call into Discord, TeamSpeak, the clock or the file system takes its
  outcome from an explicit environment record; the functions return the new
  program state together with the list of external actions they performed.
* An `async` function body is executed as one atomic step.
-/

set_option autoImplicit false

namespace TS3Status

/-! ## JavaScript strings -/

/-- A JavaScript string: its sequence of UTF-16 code units. -/
abbrev JSStr := List Nat

/-- UTF-16 encoding of one Unicode scalar value. -/
def utf16 (c : Char) : List Nat :=
  if c.toNat < 65536 then [c.toNat]
  else [55296 + (c.toNat - 65536) / 1024, 56320 + (c.toNat - 65536) % 1024]

/-- The JavaScript string denoted by a source literal. -/
def lit (s : String) : JSStr := s.toList.flatMap utf16

/-- `String.prototype.includes`: `pat` occurs in `s` at some position. -/
def includes : JSStr → JSStr → Bool
  | [], pat => pat.isEmpty
  | u :: rest, pat => pat.isPrefixOf (u :: rest) || includes rest pat

/-- `Array.prototype.join` on an array of strings. -/
def join (sep : JSStr) : List JSStr → JSStr
  | [] => []
  | [s] => s
  | s :: t :: rest => s ++ sep ++ join sep (t :: rest)

/-- Worker of `decimal`: most significant digit first, `fuel` bounds the digits. -/
def decimalAux : Nat → Nat → List Nat → List Nat
  | 0, _, acc => acc
  | fuel + 1, n, acc =>
    if n < 10 then (48 + n) :: acc
    else decimalAux fuel (n / 10) ((48 + n % 10) :: acc)

/-- `Number::toString` of a non-negative integer: its decimal digits. -/
def decimal (n : Nat) : JSStr := decimalAux (n + 1) n []

/-! ## Configuration (`CONFIG`) -/

/-- Value of `CONFIG.updateInterval`. -/
def CONFIG_updateInterval : Int := 10000

/-- Value of `CONFIG.forceRefreshInterval`. -/
def CONFIG_forceRefreshInterval : Int := 180000

/-- Value of `CONFIG.maxUsernameLength`. -/
def CONFIG_maxUsernameLength : Nat := 15

/-- Value of `CONFIG.ignoreDefaultChannel`. -/
def CONFIG_ignoreDefaultChannel : Bool := true

/-- Value of `CONFIG.countChannelNameTemplate`, as the source file has it:
`TeamSpeak: %COUNT%` followed by the four characters with code units 240, 376,
8220 and 382. -/
def CONFIG_countChannelNameTemplate : JSStr := lit "TeamSpeak: %COUNT%ðŸ“ž"

/-- `String.prototype.replace` with a string pattern: the first occurrence of
`pat` is replaced by `rep` (a replacement without `$`, such as the digits of a
number). -/
def replaceFirst : JSStr → JSStr → JSStr → JSStr
  | [], pat, rep => if pat.isEmpty then rep else []
  | u :: rest, pat, rep =>
    if pat.isPrefixOf (u :: rest) then rep ++ (u :: rest).drop pat.length
    else u :: replaceFirst rest pat rep

/-- The new channel name: `CONFIG.countChannelNameTemplate.replace('%COUNT%', count)`. -/
def countChannelName (count : Nat) : JSStr :=
  replaceFirst CONFIG_countChannelNameTemplate (lit "%COUNT%") (decimal count)

/-! ## `formatUsername` -/

/-- The function `formatUsername` of the source. -/
def formatUsername (username : JSStr) : JSStr :=
  let truncatedName :=
    if username.length > CONFIG_maxUsernameLength then
      username.take CONFIG_maxUsernameLength ++ lit "..."
    else username
  lit "- " ++ truncatedName

/-! ## `JSON.stringify` on strings -/

/-- Code unit of a leading (high) surrogate. -/
def isLeadingSurrogate (u : Nat) : Bool := 55296 ≤ u && u ≤ 56319

/-- Code unit of a trailing (low) surrogate. -/
def isTrailingSurrogate (u : Nat) : Bool := 56320 ≤ u && u ≤ 57343

/-- One lowercase hexadecimal digit. -/
def hexDigit (d : Nat) : Nat := if d < 10 then 48 + d else 87 + d

/-- The abstract operation `UnicodeEscape`: backslash, `u`, four hex digits. -/
def unicodeEscape (u : Nat) : JSStr :=
  [92, 117, hexDigit (u / 4096 % 16), hexDigit (u / 256 % 16),
    hexDigit (u / 16 % 16), hexDigit (u % 16)]

/-- The body of `QuoteJSONString`, without the enclosing quotation marks: the
seven short escapes, `UnicodeEscape` for other control characters and for lone
surrogates, every other character (surrogate pairs included) as it is. -/
def quoteJSONBody : JSStr → JSStr
  | [] => []
  | u :: rest =>
    if u = 8 then 92 :: 98 :: quoteJSONBody rest
    else if u = 9 then 92 :: 116 :: quoteJSONBody rest
    else if u = 10 then 92 :: 110 :: quoteJSONBody rest
    else if u = 12 then 92 :: 102 :: quoteJSONBody rest
    else if u = 13 then 92 :: 114 :: quoteJSONBody rest
    else if u = 34 then 92 :: 34 :: quoteJSONBody rest
    else if u = 92 then 92 :: 92 :: quoteJSONBody rest
    else if u < 32 then unicodeEscape u ++ quoteJSONBody rest
    else if isLeadingSurrogate u then
      match rest with
      | [] => unicodeEscape u
      | v :: rest2 =>
        if isTrailingSurrogate v then u :: v :: quoteJSONBody rest2
        else unicodeEscape u ++ quoteJSONBody (v :: rest2)
    else if isTrailingSurrogate u then unicodeEscape u ++ quoteJSONBody rest
    else u :: quoteJSONBody rest

/-- `JSON.stringify` of a string (`QuoteJSONString`). -/
def stringifyString (s : JSStr) : JSStr := 34 :: quoteJSONBody s ++ [34]

/-! ## Data model -/

/-- A channel as returned by `channelList()`: `cid`, `name`, `flagDefault`.
Channel ids are non-negative integers. -/
structure Channel where
  cid : Nat
  name : JSStr
  flagDefault : Bool
  deriving DecidableEq, Repr

/-- A client as returned by `clientList({ clientType: 0 })`: `cid`, `nickname`. -/
structure Client where
  cid : Nat
  nickname : JSStr
  deriving DecidableEq, Repr

/-- A value of `channelData`: `{ name, users }`. -/
structure Group where
  name : JSStr
  users : List JSStr
  deriving DecidableEq, Repr

/-- A JavaScript object whose property keys are the decimal strings of natural
numbers, as the list of its own properties in `[[OwnPropertyKeys]]` order. -/
abbrev JSObj (V : Type) := List (Nat × V)

/-- The key is an array index: an integer below `2^32 - 1`. Such keys are
enumerated first, in ascending order; the other keys follow in creation order. -/
def isArrayIndex (k : Nat) : Bool := k < 4294967295

/-- The assignment `o[k] = v`. An existing property keeps its place; a new one
takes the place the enumeration order of own property keys gives it. -/
def objSet {V : Type} : JSObj V → Nat → V → JSObj V
  | [], k, v => [(k, v)]
  | (k1, v1) :: rest, k, v =>
    if k1 = k then (k, v) :: rest
    else if isArrayIndex k && (!isArrayIndex k1 || k < k1) then (k, v) :: (k1, v1) :: rest
    else (k1, v1) :: objSet rest k v

/-- The property read `o[k]`. -/
def objGet {V : Type} : JSObj V → Nat → Option V
  | [], _ => none
  | (k1, v1) :: rest, k => if k1 = k then some v1 else objGet rest k

/-- `Object.values(o)`. -/
def objValues {V : Type} (o : JSObj V) : List V := o.map Prod.snd

/-- The occupancy snapshot built by `updateStatusEmbed`: the locals
`channelData` and `inactiveChannels`. -/
structure Snapshot where
  channelData : JSObj Group
  inactiveChannels : List JSStr
  deriving DecidableEq, Repr

/-- The test at the head of the `channels.forEach` callback: the channel is
skipped. -/
def isFiltered (channel : Channel) : Bool :=
  includes channel.name (lit "spacer") || includes channel.name (lit "Server Query")
    || (CONFIG_ignoreDefaultChannel && channel.flagDefault)

/-- The body of the `channels.forEach` callback of `updateStatusEmbed`. -/
def snapshotStep (clients : List Client) (acc : Snapshot) (channel : Channel) : Snapshot :=
  if isFiltered channel then acc
  else
    let usersInChannel := clients.filter (fun client => client.cid = channel.cid)
    if usersInChannel.length > 0 then
      let entry : Group :=
        { name := channel.name, users := usersInChannel.map (fun client => client.nickname) }
      { acc with channelData := objSet acc.channelData channel.cid entry }
    else
      { acc with inactiveChannels := acc.inactiveChannels ++ [channel.name] }

/-- The snapshot `updateStatusEmbed` builds from the two query results. -/
def buildSnapshot (channels : List Channel) (clients : List Client) : Snapshot :=
  channels.foldl (snapshotStep clients) { channelData := [], inactiveChannels := [] }

/-! ## `JSON.stringify` on the snapshot -/

/-- `JSON.stringify` of an array of strings. -/
def stringifyStrings (l : List JSStr) : JSStr :=
  lit "[" ++ join (lit ",") (l.map stringifyString) ++ lit "]"

/-- `JSON.stringify` of a `{ name, users }` object. -/
def stringifyGroup (g : Group) : JSStr :=
  lit "\x7b\"name\":" ++ stringifyString g.name ++ lit ",\"users\":" ++ stringifyStrings g.users
    ++ lit "\x7d"

/-- One `"key":value` member of the serialised `channelData`. -/
def stringifyEntry (e : Nat × Group) : JSStr :=
  stringifyString (decimal e.1) ++ lit ":" ++ stringifyGroup e.2

/-- `JSON.stringify` of `channelData`. -/
def stringifyChannelData (o : JSObj Group) : JSStr :=
  lit "\x7b" ++ join (lit ",") (o.map stringifyEntry) ++ lit "\x7d"

/-- The fingerprint: `JSON.stringify({ channelData, inactiveChannels })`. -/
def fingerprint (snap : Snapshot) : JSStr :=
  lit "\x7b\"channelData\":" ++ stringifyChannelData snap.channelData
    ++ lit ",\"inactiveChannels\":" ++ stringifyStrings snap.inactiveChannels ++ lit "\x7d"

/-! ## Rendering -/

/-- A field of the embed. -/
structure EmbedField where
  name : JSStr
  value : JSStr
  inline : Bool
  deriving DecidableEq, Repr

/-- The field pushed for one value of `Object.values(channelData)`. -/
def groupField (channel : Group) : EmbedField :=
  { name := channel.name
    value :=
      if channel.users.length > 0 then
        join (lit "\n") (channel.users.map (fun username => formatUsername username))
      else lit "Empty"
    inline := false }

/-- The `fields` of the embed `updateStatusEmbed` sends. -/
def embedFields (snap : Snapshot) : List EmbedField :=
  (objValues snap.channelData).map groupField ++
    (if snap.inactiveChannels.length > 0 then
      [{ name := lit "Inactive Channels"
         value := join (lit ", ") snap.inactiveChannels
         inline := false }]
    else [])

/-! ## Program state -/

/-- A property value that is `undefined` (also: absent), `null`, or a value. -/
inductive JSVal (α : Type) where
  | undefined
  | null
  | val (a : α)
  deriving DecidableEq, Repr

/-- Truthiness of a string-valued property: `undefined`, `null` and the empty
string are falsy. -/
def JSVal.truthy : JSVal JSStr → Bool
  | JSVal.val s => !s.isEmpty
  | _ => false

/-- The object `state.statusEmbed`. `lastUpdate` holds an ISO timestamp string,
represented by the instant it denotes (`new Date(iso).getTime()`). An absent
property and a property set to `undefined` are not distinguished: the program
reads properties and serialises with `JSON.stringify`, which see no difference. -/
structure DisplayRef where
  messageId : JSVal JSStr
  channelId : JSVal JSStr
  guildId : JSVal JSStr
  lastUpdate : JSVal Int
  lastState : JSVal JSStr
  deriving DecidableEq, Repr

/-- The object literal `{}`. -/
def DisplayRef.empty : DisplayRef :=
  { messageId := JSVal.undefined, channelId := JSVal.undefined, guildId := JSVal.undefined,
    lastUpdate := JSVal.undefined, lastState := JSVal.undefined }

/-- The object literal of `resetEmbedStatus`: every field `null`. -/
def DisplayRef.cleared : DisplayRef :=
  { messageId := JSVal.null, channelId := JSVal.null, guildId := JSVal.null,
    lastUpdate := JSVal.null, lastState := JSVal.null }

/-- The file `CONFIG.embedDataFile`: missing, unreadable (reading or parsing it
throws), or the JSON text of a record, represented by the record it parses to. -/
inductive File where
  | missing
  | unreadable
  | record (r : DisplayRef)
  deriving DecidableEq, Repr

/-- The global `state` (without the client handles and the timer, of which only
their presence matters), together with the data file. -/
structure State where
  tsClient : Bool
  statusEmbed : DisplayRef
  countChannel : Bool
  lastCount : Option Nat
  lastEmbedEdit : Int
  pendingEmbedUpdate : Bool
  recentRenames : List Int
  embedDataFile : File
  deriving DecidableEq, Repr

/-- Calls the program makes to its collaborators. -/
inductive Action where
  | queryTeamSpeak
  | fetchChannel (channelId : JSVal JSStr)
  | fetchMessage (messageId : JSVal JSStr)
  | editMessage (messageId : JSVal JSStr) (fields : List EmbedField)
  | writeFile (record : DisplayRef)
  | setName (name : JSStr)
  | sendMessage
  | reply
  | deleteMessage
  deriving DecidableEq, Repr

/-- The action belongs to an edit attempt on the status message. -/
def Action.isEditAttempt : Action → Bool
  | Action.fetchChannel _ => true
  | Action.fetchMessage _ => true
  | Action.editMessage _ _ => true
  | _ => false

/-! ## Persistence -/

/-- The function `saveEmbedData`: writes `JSON.stringify(state.statusEmbed)`;
a failed write is logged and leaves the file as it was. -/
def saveEmbedData (s : State) (writeOk : Bool) : State × List Action :=
  ({ s with embedDataFile := if writeOk then File.record s.statusEmbed else s.embedDataFile },
    [Action.writeFile s.statusEmbed])

/-- The function `resetEmbedStatus`. -/
def resetEmbedStatus (s : State) (writeOk : Bool) : State × List Action :=
  saveEmbedData { s with statusEmbed := DisplayRef.cleared } writeOk

/-- The function `loadEmbedData`, with its return value. -/
def loadEmbedData (s : State) : State × Bool :=
  match s.embedDataFile with
  | File.missing => ({ s with statusEmbed := DisplayRef.empty }, false)
  | File.unreadable => ({ s with statusEmbed := DisplayRef.empty }, false)
  | File.record loadedData =>
    if loadedData.messageId.truthy && loadedData.channelId.truthy then
      ({ s with statusEmbed := loadedData }, true)
    else (s, false)

/-! ## `updateStatusEmbed` -/

/-- Outcomes of the external calls of one run of `updateStatusEmbed`. -/
structure EmbedEnv where
  /-- Result of `channelList()` and `clientList()`; `none` when one rejects. -/
  query : Option (List Channel × List Client)
  /-- The instant `new Date()` for `lastUpdate`. -/
  updatedAt : Int
  /-- Whether `channels.fetch` yields a channel (it may reject or yield nothing). -/
  channelFound : Bool
  /-- Whether `messages.fetch` yields a message. -/
  messageFound : Bool
  /-- Whether `message.edit` resolves. -/
  editOk : Bool
  /-- The instant `Date.now()` after the edit. -/
  editedAt : Int
  /-- Whether `fs.writeFile` resolves. -/
  writeOk : Bool
  deriving DecidableEq, Repr

/-- The inner `try` block of `updateStatusEmbed`: fetch the channel and the
message, edit the message and save; `resetEmbedStatus` when one of them fails. -/
def applyEdit (s : State) (snap : Snapshot) (env : EmbedEnv) : State × List Action :=
  let fetchC := Action.fetchChannel s.statusEmbed.channelId
  let fetchM := Action.fetchMessage s.statusEmbed.messageId
  let edit := Action.editMessage s.statusEmbed.messageId (embedFields snap)
  if !env.channelFound then
    let r := resetEmbedStatus s env.writeOk
    (r.1, [fetchC] ++ r.2)
  else if !env.messageFound then
    let r := resetEmbedStatus s env.writeOk
    (r.1, [fetchC, fetchM] ++ r.2)
  else if !env.editOk then
    let r := resetEmbedStatus s env.writeOk
    (r.1, [fetchC, fetchM, edit] ++ r.2)
  else
    let r := saveEmbedData { s with lastEmbedEdit := env.editedAt } env.writeOk
    (r.1, [fetchC, fetchM, edit] ++ r.2)

/-- The assignments to `lastState` and `lastUpdate` that precede the edit. -/
def markRendered (s : State) (currentState : JSStr) (updatedAt : Int) : State :=
  { s with statusEmbed :=
      { s.statusEmbed with
        lastState := JSVal.val currentState, lastUpdate := JSVal.val updatedAt } }

/-- The function `updateStatusEmbed`. -/
def updateStatusEmbed (s : State) (forceUpdate : Bool) (env : EmbedEnv) : State × List Action :=
  if !s.tsClient || !s.statusEmbed.messageId.truthy then (s, [])
  else
    match env.query with
    | none => (s, [Action.queryTeamSpeak])
    | some (channels, clients) =>
      let snap := buildSnapshot channels clients
      let currentState := fingerprint snap
      if !forceUpdate && s.statusEmbed.lastState = JSVal.val currentState then
        (s, [Action.queryTeamSpeak])
      else
        let r := applyEdit (markRendered s currentState env.updatedAt) snap env
        (r.1, [Action.queryTeamSpeak] ++ r.2)

/-! ## `updateCountChannelName` -/

/-- Outcomes of the external calls of one run of `updateCountChannelName`. -/
structure CountEnv where
  /-- Result of `channelList()` and `clientList()`; `none` when one rejects. -/
  query : Option (List Channel × List Client)
  /-- The instant `Date.now()`. -/
  now : Int
  /-- Whether `setName` resolves. -/
  setNameOk : Bool
  deriving DecidableEq, Repr

/-- The occupant count computed by `updateCountChannelName`. -/
def occupantCount (channels : List Channel) (clients : List Client) : Nat :=
  let defaultChannel := channels.find? (fun ch => ch.flagDefault)
  let defaultChannelId := defaultChannel.map (fun ch => ch.cid)
  let activeClients :=
    if CONFIG_ignoreDefaultChannel then
      clients.filter (fun client => some client.cid ≠ defaultChannelId)
    else clients
  activeClients.length

/-- `Math.max(...times)` on a non-empty array. -/
def maxTime : List Int → Int
  | [] => 0
  | t :: rest => rest.foldl max t

/-- The rename-rate guard of `updateCountChannelName`, on the pruned history:
`timeSinceLastRename >= 61000 && recentRenames.length < 2`, where the time
since the last rename is `Infinity` on an empty history. -/
def renameAllowed (recent : List Int) (now : Int) : Bool :=
  let spaced : Bool :=
    if recent.length > 0 then decide (now - maxTime recent ≥ 61000) else true
  spaced && decide (recent.length < 2)

/-- The function `updateCountChannelName`. -/
def updateCountChannelName (s : State) (env : CountEnv) : State × List Action :=
  if !s.countChannel || !s.tsClient then (s, [])
  else
    match env.query with
    | none => (s, [Action.queryTeamSpeak])
    | some (channels, clients) =>
      let count := occupantCount channels clients
      if s.lastCount = some count then (s, [Action.queryTeamSpeak])
      else
        let now := env.now
        let recent := s.recentRenames.filter (fun time => now - time < 600000)
        if renameAllowed recent now then
          let newName := countChannelName count
          if env.setNameOk then
            ({ s with recentRenames := recent ++ [now], lastCount := some count },
              [Action.queryTeamSpeak, Action.setName newName])
          else
            ({ s with recentRenames := recent, lastCount := some count },
              [Action.queryTeamSpeak, Action.setName newName])
        else ({ s with recentRenames := recent }, [Action.queryTeamSpeak])

/-! ## The scheduler tick -/

/-- Clock readings and outcomes of one run of the interval callback of
`startSchedulerTimer`. -/
structure TickEnv where
  /-- The instant `Date.now()` read first. -/
  now : Int
  /-- Outcomes for `updateCountChannelName`. -/
  count : CountEnv
  /-- Outcomes for `updateStatusEmbed`. -/
  embed : EmbedEnv
  /-- The instant `Date.now()` stored in `lastEmbedEdit` after the update. -/
  finishedAt : Int
  deriving DecidableEq, Repr

/-- First statement of the tick: the count label is refreshed when the count
channel and the TeamSpeak handle are present. -/
def tickCount (s : State) (env : TickEnv) : State × List Action :=
  if s.countChannel && s.tsClient then updateCountChannelName s env.count else (s, [])

/-- The condition under which the tick calls `updateStatusEmbed`. -/
def embedGate (s : State) (now : Int) : Bool :=
  s.statusEmbed.messageId.truthy &&
    (let lastEmbedUpdateTime : Int :=
      match s.statusEmbed.lastUpdate with
      | JSVal.val t => t
      | _ => 0
    let needRegular := decide (now - lastEmbedUpdateTime ≥ CONFIG_updateInterval)
    let needForce := decide (now - lastEmbedUpdateTime ≥ CONFIG_forceRefreshInterval)
    (s.pendingEmbedUpdate || needRegular || needForce) && decide (now - s.lastEmbedEdit ≥ 5000))

/-- The `forceUpdate` argument the tick passes: `needForce || pendingEmbedUpdate`. -/
def tickForce (s : State) (now : Int) : Bool :=
  let lastEmbedUpdateTime : Int :=
    match s.statusEmbed.lastUpdate with
    | JSVal.val t => t
    | _ => 0
  decide (now - lastEmbedUpdateTime ≥ CONFIG_forceRefreshInterval) || s.pendingEmbedUpdate

/-- Whether the tick run on `s` calls `updateStatusEmbed`. -/
def tickInvokes (s : State) (env : TickEnv) : Bool :=
  embedGate (tickCount s env).1 env.now

/-- The interval callback of `startSchedulerTimer`. -/
def tick (s : State) (env : TickEnv) : State × List Action :=
  let r1 := tickCount s env
  if embedGate r1.1 env.now then
    let r2 := updateStatusEmbed r1.1 (tickForce r1.1 env.now) env.embed
    ({ r2.1 with lastEmbedEdit := env.finishedAt, pendingEmbedUpdate := false }, r1.2 ++ r2.2)
  else r1

/-! ## `createStatusEmbed` and the event handlers -/

/-- Outcomes of the external calls of one run of `createStatusEmbed`. -/
structure CreateEnv where
  /-- Id of the message `message.channel.send` created; `none` when it rejects. -/
  sent : Option JSStr
  /-- The value `message.channel.id`. -/
  channelId : JSStr
  /-- The value `message.guild?.id`. -/
  guildId : JSVal JSStr
  /-- The instant `new Date()` for `lastUpdate`. -/
  createdAt : Int
  /-- Whether the first `fs.writeFile` resolves. -/
  writeOk : Bool
  /-- Outcomes for `updateStatusEmbed(true)`. -/
  embed : EmbedEnv
  /-- The instant `Date.now()` stored in `lastEmbedEdit`. -/
  finishedAt : Int
  /-- The value `message.deletable`. -/
  deletable : Bool
  deriving DecidableEq, Repr

/-- The function `createStatusEmbed`. -/
def createStatusEmbed (s : State) (env : CreateEnv) : State × List Action :=
  if !s.tsClient then (s, [Action.reply])
  else
    match env.sent with
    | none => (s, [Action.sendMessage, Action.reply])
    | some sentId =>
      let s1 : State :=
        { s with statusEmbed :=
            { messageId := JSVal.val sentId, channelId := JSVal.val env.channelId,
              guildId := env.guildId, lastUpdate := JSVal.val env.createdAt,
              lastState := JSVal.null } }
      let r2 := saveEmbedData s1 env.writeOk
      let s3 : State := { r2.1 with pendingEmbedUpdate := true }
      let r4 := updateStatusEmbed s3 true env.embed
      ({ r4.1 with lastEmbedEdit := env.finishedAt },
        [Action.sendMessage] ++ r2.2 ++ r4.2 ++
          (if env.deletable then [Action.deleteMessage] else []))

/-- What happens to the program between and including scheduler ticks. -/
inductive Event where
  /-- The interval callback runs. -/
  | tick (env : TickEnv)
  /-- A `clientconnect`, `clientdisconnect` or `clientmoved` notification. -/
  | dirty
  /-- The connection code sets or clears `state.tsClient`. -/
  | session (connected : Bool)
  /-- A `messageDelete` notification for the message with this id. -/
  | messageDelete (id : JSStr) (writeOk : Bool)
  /-- The creation command. -/
  | create (env : CreateEnv)
  deriving DecidableEq, Repr

/-- One event. -/
def step (s : State) : Event → State × List Action
  | Event.tick env => tick s env
  | Event.dirty => ({ s with pendingEmbedUpdate := true }, [])
  | Event.session connected => ({ s with tsClient := connected }, [])
  | Event.messageDelete id writeOk =>
    if s.statusEmbed.messageId = JSVal.val id then resetEmbedStatus s writeOk else (s, [])
  | Event.create env => createStatusEmbed s env

/-- A sequence of events, with all the actions performed. -/
def run (s : State) : List Event → State × List Action
  | [] => (s, [])
  | e :: rest =>
    let r := step s e
    let r2 := run r.1 rest
    (r2.1, r.2 ++ r2.2)

/-- The instants `now` of the ticks of the sequence that call `updateStatusEmbed`. -/
def tickInvocations (s : State) : List Event → List Int
  | [] => []
  | Event.tick env :: rest =>
    (if tickInvokes s env then [env.now] else []) ++ tickInvocations (step s (Event.tick env)).1 rest
  | e :: rest => tickInvocations (step s e).1 rest

/-- The clock readings of an event, in program order. -/
def Event.readings : Event → List Int
  | Event.tick env =>
    [env.now, env.count.now, env.embed.updatedAt, env.embed.editedAt, env.finishedAt]
  | Event.create env => [env.createdAt, env.embed.updatedAt, env.embed.editedAt, env.finishedAt]
  | _ => []

/-- The clock never goes back over the sequence of events. -/
def clockMonotone (events : List Event) : Prop :=
  (events.flatMap Event.readings).Pairwise (fun a b => a ≤ b)


/-! ## Concrete inputs used in the examples below -/

/-- The state of a freshly started process, given the data file it finds. -/
def State.initial (file : File) : State :=
  { tsClient := false, statusEmbed := DisplayRef.empty, countChannel := false, lastCount := none,
    lastEmbedEdit := 0, pendingEmbedUpdate := false, recentRenames := [], embedDataFile := file }

/-- A display reference as `createStatusEmbed` leaves it. -/
def sampleRef : DisplayRef :=
  { messageId := JSVal.val (lit "1001"), channelId := JSVal.val (lit "2002"),
    guildId := JSVal.val (lit "3003"), lastUpdate := JSVal.val 1000, lastState := JSVal.null }

/-- A running bot that owns a status message. -/
def sampleState : State :=
  { tsClient := true, statusEmbed := sampleRef, countChannel := true, lastCount := some 0,
    lastEmbedEdit := 1000, pendingEmbedUpdate := true, recentRenames := [],
    embedDataFile := File.record sampleRef }

/-- The channel list of the filter example. -/
def sampleChannels : List Channel :=
  [{ cid := 1, name := lit "Lobby", flagDefault := true },
   { cid := 2, name := lit "spacer-1", flagDefault := false },
   { cid := 3, name := lit "Gaming", flagDefault := false }]

/-- The client list of the filter example. -/
def sampleClients : List Client :=
  [{ cid := 1, nickname := lit "a" }, { cid := 3, nickname := lit "b" }]

/-- Outcomes of an update in which every external call succeeds. -/
def sampleEmbedEnv : EmbedEnv :=
  { query := some (sampleChannels, sampleClients), updatedAt := 20000, channelFound := true,
    messageFound := true, editOk := true, editedAt := 20000, writeOk := true }

/-- Outcomes of a count refresh in which every external call succeeds. -/
def sampleCountEnv : CountEnv :=
  { query := some (sampleChannels, sampleClients), now := 20000, setNameOk := true }

/-- A tick at instant 20000 in which every external call succeeds. -/
def sampleTickEnv : TickEnv :=
  { now := 20000, count := sampleCountEnv, embed := sampleEmbedEnv, finishedAt := 20000 }

/-! ## Observations on sequences -/

/-- The action is a rename of the count channel. -/
def Action.isRename : Action → Bool
  | Action.setName _ => true
  | _ => false

/-- Whether this run of `updateCountChannelName` renames the channel: `setName`
is called and resolves. -/
def countRenames (s : State) (env : CountEnv) : Bool :=
  (updateCountChannelName s env).2.any Action.isRename && env.setNameOk

/-- The state after a sequence of runs of `updateCountChannelName`. -/
def countRun (s : State) : List CountEnv → State
  | [] => s
  | env :: rest => countRun (updateCountChannelName s env).1 rest

/-- The instants `now` of the runs of the sequence that rename the channel. -/
def renameInstants (s : State) : List CountEnv → List Int
  | [] => []
  | env :: rest =>
    (if countRenames s env then [env.now] else []) ++
      renameInstants (updateCountChannelName s env).1 rest

/-- Clients to make the count 1, 2 and 3. -/
def countClients (n : Nat) : List Client :=
  (List.range n).map (fun i => { cid := 3, nickname := decimal i })

/-- A run of `updateCountChannelName` at instant `now` that finds `n` occupants
and whose `setName` resolves. -/
def countCall (now : Int) (n : Nat) : CountEnv :=
  { query := some (sampleChannels, countClients n), now := now, setNameOk := true }

/-- Five runs: a rename, a run too soon after it, a second rename, a run
with two renames in the window, and a rename once the first has left it. -/
def sampleCalls : List CountEnv :=
  [countCall 20000 1, countCall 30000 2, countCall 90000 2, countCall 200000 3,
    countCall 620000 3]

/-- A tick all of whose clock readings are `t` and whose external calls succeed. -/
def tickAt (t : Int) : TickEnv :=
  { now := t, count := { sampleCountEnv with now := t },
    embed := { sampleEmbedEnv with updatedAt := t, editedAt := t }, finishedAt := t }

/-- Ticks at 20000, 22000 and 25000 with dirty triggers before and between them. -/
def sampleEvents : List Event :=
  [Event.dirty, Event.tick (tickAt 20000), Event.dirty, Event.dirty, Event.tick (tickAt 22000),
    Event.dirty, Event.tick (tickAt 25000)]

/-- The order of own property keys: array indices ascending, then the other
keys, no key twice. -/
def keyOrder (a b : Nat) : Prop :=
  if isArrayIndex a then (isArrayIndex b = true → a < b) else (isArrayIndex b = false ∧ a ≠ b)

/-! ## Reading a quoted string back -/

/-- Value of one hexadecimal digit. -/
def unhex (c : Nat) : Nat := if c < 58 then c - 48 else c - 87

/-- The character a short escape stands for. -/
def unescape (e : Nat) : Nat :=
  if e = 98 then 8 else if e = 116 then 9 else if e = 110 then 10
  else if e = 102 then 12 else if e = 114 then 13 else e

/-- Reads the body of a quoted JSON string up to its closing quotation mark:
the string it denotes and the text after the mark. -/
def unquoteJSONBody : JSStr → Option (JSStr × JSStr)
  | [] => none
  | c :: t =>
    if c = 34 then some ([], t)
    else if c = 92 then
      match t with
      | [] => none
      | e :: t2 =>
        if e = 117 then
          match t2 with
          | a :: b :: c2 :: d :: t3 =>
            (unquoteJSONBody t3).map
              (fun p => ((4096 * unhex a + 256 * unhex b + 16 * unhex c2 + unhex d) :: p.1, p.2))
          | _ => none
        else (unquoteJSONBody t2).map (fun p => (unescape e :: p.1, p.2))
    else (unquoteJSONBody t).map (fun p => (c :: p.1, p.2))

/-- Value of a string of decimal digits. -/
def decimalValue (l : List Nat) : Nat := l.foldl (fun a d => 10 * a + (d - 48)) 0

/-- The action is an edit of the status message. -/
def Action.isEdit : Action → Bool
  | Action.editMessage _ _ => true
  | _ => false

/-- The instants `now` of the ticks of the sequence that edit the status message. -/
def editInstants (s : State) : List Event → List Int
  | [] => []
  | Event.tick env :: rest =>
    (if (tick s env).2.any Action.isEdit then [env.now] else []) ++
      editInstants (step s (Event.tick env)).1 rest
  | e :: rest => editInstants (step s e).1 rest

/-! ## Frame lemmas -/

/-- Actions of the inner block address the stored message and create none. -/
theorem applyEdit_targets (s : State) (snap : Snapshot) (env : EmbedEnv) (a : Action)
    (ha : a ∈ (applyEdit s snap env).2) :
    a ≠ Action.sendMessage ∧ a ≠ Action.reply ∧
    (∀ c, a = Action.fetchChannel c → c = s.statusEmbed.channelId) ∧
    (∀ m, a = Action.fetchMessage m → m = s.statusEmbed.messageId) ∧
    (∀ m f, a = Action.editMessage m f → m = s.statusEmbed.messageId) := by
  obtain ⟨q, u, cf, mf, eo, ea, wo⟩ := env
  cases cf <;> cases mf <;> cases eo <;>
    simp [applyEdit, resetEmbedStatus, saveEmbedData] at ha <;>
    casesm* _ ∨ _ <;> subst_vars <;> simp

/-- Actions of `updateStatusEmbed` address the stored message and create none. -/
theorem updateStatusEmbed_targets (s : State) (force : Bool) (env : EmbedEnv) (a : Action)
    (ha : a ∈ (updateStatusEmbed s force env).2) :
    a ≠ Action.sendMessage ∧ a ≠ Action.reply ∧
    (∀ c, a = Action.fetchChannel c → c = s.statusEmbed.channelId) ∧
    (∀ m, a = Action.fetchMessage m → m = s.statusEmbed.messageId) ∧
    (∀ m f, a = Action.editMessage m f → m = s.statusEmbed.messageId) := by
  unfold updateStatusEmbed at ha
  by_cases h1 : (!s.tsClient || !s.statusEmbed.messageId.truthy) = true
  · simp [h1] at ha
  · rw [if_neg h1] at ha
    rcases hq : env.query with _ | ⟨channels, clients⟩
    · simp [hq] at ha; subst ha; simp
    · simp only [hq] at ha
      split at ha
      · simp at ha; subst ha; simp
      · simp only [List.singleton_append, List.mem_cons] at ha
        rcases ha with h | h
        · subst h; simp
        · have := applyEdit_targets _ _ _ _ h
          simpa [markRendered] using this

/-- Actions of `updateCountChannelName` are queries and renames. -/
theorem updateCountChannelName_actions (s : State) (env : CountEnv) (a : Action)
    (ha : a ∈ (updateCountChannelName s env).2) :
    a = Action.queryTeamSpeak ∨ ∃ n, a = Action.setName n := by
  unfold updateCountChannelName at ha
  by_cases h1 : (!s.countChannel || !s.tsClient) = true
  · simp [h1] at ha
  · rw [if_neg h1] at ha
    rcases hq : env.query with _ | ⟨channels, clients⟩
    · simp [hq] at ha; exact Or.inl ha
    · simp only [hq] at ha
      by_cases h2 : s.lastCount = some (occupantCount channels clients)
      · simp [h2] at ha; exact Or.inl ha
      · rw [if_neg h2] at ha
        by_cases h3 : renameAllowed
            (s.recentRenames.filter (fun time => env.now - time < 600000)) env.now = true
        · cases h4 : env.setNameOk <;> simp [h3, h4] at ha <;>
            rcases ha with h | h
          · exact Or.inl h
          · exact Or.inr ⟨_, h⟩
          · exact Or.inl h
          · exact Or.inr ⟨_, h⟩
        · simp [h3] at ha; exact Or.inl ha

/-- The count refresh leaves the display reference, the data file, the pending
flag, the last edit instant and the two handles as they were. -/
theorem updateCountChannelName_frame (s : State) (env : CountEnv) :
    (updateCountChannelName s env).1.statusEmbed = s.statusEmbed ∧
    (updateCountChannelName s env).1.embedDataFile = s.embedDataFile ∧
    (updateCountChannelName s env).1.pendingEmbedUpdate = s.pendingEmbedUpdate ∧
    (updateCountChannelName s env).1.lastEmbedEdit = s.lastEmbedEdit ∧
    (updateCountChannelName s env).1.tsClient = s.tsClient ∧
    (updateCountChannelName s env).1.countChannel = s.countChannel := by
  unfold updateCountChannelName
  by_cases h1 : (!s.countChannel || !s.tsClient) = true
  · simp [h1]
  · rw [if_neg h1]
    rcases hq : env.query with _ | ⟨channels, clients⟩
    · simp
    · simp only
      by_cases h2 : s.lastCount = some (occupantCount channels clients)
      · simp [h2]
      · rw [if_neg h2]
        by_cases h3 : renameAllowed
            (s.recentRenames.filter (fun time => env.now - time < 600000)) env.now = true
        · cases h4 : env.setNameOk <;> simp [h3]
        · simp [h3]

/-- The first statement of the tick has the same frame. -/
theorem tickCount_frame (s : State) (env : TickEnv) :
    (tickCount s env).1.statusEmbed = s.statusEmbed ∧
    (tickCount s env).1.embedDataFile = s.embedDataFile ∧
    (tickCount s env).1.pendingEmbedUpdate = s.pendingEmbedUpdate ∧
    (tickCount s env).1.lastEmbedEdit = s.lastEmbedEdit ∧
    (tickCount s env).1.tsClient = s.tsClient ∧
    (tickCount s env).1.countChannel = s.countChannel := by
  unfold tickCount
  split
  · exact updateCountChannelName_frame s env.count
  · simp

/-- Actions of the first statement of the tick are queries and renames. -/
theorem tickCount_actions (s : State) (env : TickEnv) (a : Action)
    (ha : a ∈ (tickCount s env).2) :
    a = Action.queryTeamSpeak ∨ ∃ n, a = Action.setName n := by
  unfold tickCount at ha
  split at ha
  · exact updateCountChannelName_actions s env.count a ha
  · simp at ha

/-- The gate of the tick reads only fields the count refresh leaves alone. -/
theorem embedGate_tickCount (s : State) (env : TickEnv) :
    embedGate (tickCount s env).1 env.now = embedGate s env.now ∧
    tickForce (tickCount s env).1 env.now = tickForce s env.now := by
  obtain ⟨h1, _, h3, h4, _, _⟩ := tickCount_frame s env
  simp [embedGate, tickForce, h1, h3, h4]

/-- Without a session handle, without a message id, or when the query fails,
`updateStatusEmbed` returns with the state untouched and contacts Discord not at all. -/
theorem updateStatusEmbed_skip (s : State) (force : Bool) (env : EmbedEnv)
    (h : s.tsClient = false ∨ s.statusEmbed.messageId.truthy = false ∨ env.query = none) :
    (updateStatusEmbed s force env).1 = s ∧
    ∀ a ∈ (updateStatusEmbed s force env).2, a = Action.queryTeamSpeak := by
  unfold updateStatusEmbed
  by_cases h1 : (!s.tsClient || !s.statusEmbed.messageId.truthy) = true
  · simp [h1]
  · rw [if_neg h1]
    have hq : env.query = none := by
      rcases h with h | h | h
      · simp [h] at h1
      · simp [h] at h1
      · exact h
    simp [hq]

/-- With a falsy message id the gate of the tick is closed. -/
theorem embedGate_falsy (s : State) (now : Int) (h : s.statusEmbed.messageId.truthy = false) :
    embedGate s now = false := by
  simp [embedGate, h]

/-! ## Objects and the snapshot -/

/-- An entry of `o[k] = v` is the new one or an old one. -/
theorem mem_objSet {V : Type} (o : JSObj V) (k : Nat) (v : V) (e : Nat × V)
    (he : e ∈ objSet o k v) : e = (k, v) ∨ e ∈ o := by
  induction o with
  | nil => simp [objSet] at he; exact Or.inl he
  | cons p rest ih =>
    obtain ⟨k1, v1⟩ := p
    unfold objSet at he
    split at he
    · rcases List.mem_cons.mp he with h | h
      · exact Or.inl h
      · exact Or.inr (List.mem_cons_of_mem _ h)
    · split at he
      · rcases List.mem_cons.mp he with h | h
        · exact Or.inl h
        · exact Or.inr h
      · rcases List.mem_cons.mp he with h | h
        · exact Or.inr (by rw [h]; exact List.mem_cons_self _ _)
        · rcases ih h with h2 | h2
          · exact Or.inl h2
          · exact Or.inr (List.mem_cons_of_mem _ h2)

/-- The keys after `o[k] = v` are `k` and the old keys. -/
theorem keys_objSet {V : Type} (o : JSObj V) (k : Nat) (v : V) (x : Nat) :
    x ∈ (objSet o k v).map Prod.fst ↔ x = k ∨ x ∈ o.map Prod.fst := by
  induction o with
  | nil => simp [objSet]
  | cons p rest ih =>
    obtain ⟨k1, v1⟩ := p
    unfold objSet
    split
    · rename_i h; subst h; simp
    · split
      · simp
      · simp only [List.map_cons, List.mem_cons, ih]
        tauto

/-- Reading `o[k]` after `o[k] = v` yields `v`. -/
theorem objGet_objSet_self {V : Type} (o : JSObj V) (k : Nat) (v : V) :
    objGet (objSet o k v) k = some v := by
  induction o with
  | nil => simp [objSet, objGet]
  | cons p rest ih =>
    obtain ⟨k1, v1⟩ := p
    unfold objSet
    split
    · simp [objGet]
    · split
      · simp [objGet]
      · rename_i h _
        simp [objGet, h, ih]

/-- Reading another key after `o[k] = v` yields what it yielded before. -/
theorem objGet_objSet_other {V : Type} (o : JSObj V) (k x : Nat) (v : V) (hx : x ≠ k) :
    objGet (objSet o k v) x = objGet o x := by
  induction o with
  | nil => simp [objSet, objGet, Ne.symm hx]
  | cons p rest ih =>
    obtain ⟨k1, v1⟩ := p
    unfold objSet
    split
    · rename_i h; subst h; simp [objGet, Ne.symm hx]
    · split
      · simp [objGet, Ne.symm hx]
      · simp [objGet, ih]

/-- The order of own property keys is kept by `o[k] = v`. -/
theorem keyOrder_objSet {V : Type} (o : JSObj V) (k : Nat) (v : V)
    (ho : (o.map Prod.fst).Pairwise keyOrder) :
    ((objSet o k v).map Prod.fst).Pairwise keyOrder := by
  induction o with
  | nil => simp [objSet]
  | cons p rest ih =>
    obtain ⟨k1, v1⟩ := p
    simp only [List.map_cons, List.pairwise_cons] at ho
    obtain ⟨h1, h2⟩ := ho
    unfold objSet
    split
    · rename_i h; subst h
      simp only [List.map_cons, List.pairwise_cons]
      exact ⟨h1, h2⟩
    · rename_i hne
      split
      · rename_i hins
        simp only [Bool.and_eq_true, Bool.or_eq_true, Bool.not_eq_true', decide_eq_true_eq] at hins
        obtain ⟨hk, hk1⟩ := hins
        simp only [List.map_cons, List.pairwise_cons, List.mem_cons]
        refine ⟨?_, h1, h2⟩
        intro x hx
        unfold keyOrder
        rw [if_pos hk]
        intro hxi
        rcases hx with hx | hx
        · subst hx
          rcases hk1 with h | h
          · rw [h] at hxi; cases hxi
          · exact h
        · have := h1 x hx
          unfold keyOrder at this
          rcases hk1 with h | h
          · simp only [h, Bool.false_eq_true, if_false] at this
            rw [this.1] at hxi; cases hxi
          · by_cases hi1 : isArrayIndex k1 = true
            · rw [if_pos hi1] at this
              exact lt_trans h (this hxi)
            · rw [if_neg hi1] at this
              rw [this.1] at hxi; cases hxi
      · rename_i hins
        simp only [List.map_cons, List.pairwise_cons]
        refine ⟨?_, ih h2⟩
        intro x hx
        rcases (keys_objSet rest k v x).mp hx with hx | hx
        · subst hx
          simp only [Bool.and_eq_true, Bool.or_eq_true, Bool.not_eq_true', decide_eq_true_eq,
            not_and, not_or, not_lt] at hins
          unfold keyOrder
          by_cases hi1 : isArrayIndex k1 = true
          · rw [if_pos hi1]
            intro hxi
            have := (hins hxi).2
            omega
          · rw [if_neg hi1]
            refine ⟨?_, hne⟩
            cases hxi : isArrayIndex x
            · rfl
            · simp only [Bool.not_eq_true] at hi1
              exact absurd hi1 (hins hxi).1
        · exact h1 x hx

/-- Keys in the order of own property keys are pairwise distinct. -/
theorem nodup_of_keyOrder (l : List Nat) (h : l.Pairwise keyOrder) : l.Nodup := by
  unfold List.Nodup
  apply List.Pairwise.imp _ h
  intro a b hab heq
  subst heq
  unfold keyOrder at hab
  split at hab
  · rename_i hi; exact lt_irrefl _ (hab hi)
  · exact hab.2 rfl

/-- The snapshot of a channel list extended by one channel. -/
theorem buildSnapshot_append (channels : List Channel) (ch : Channel) (clients : List Client) :
    buildSnapshot (channels ++ [ch]) clients =
      snapshotStep clients (buildSnapshot channels clients) ch := by
  simp [buildSnapshot, List.foldl_append]

/-- The facts about the snapshot that the filter and the membership claims
rest on: the keys of `channelData` are in own property key order; every entry
is the entry of an unfiltered channel and lists the nicknames of the clients in
it, of which there is one at least; every unfiltered channel with a client has
an entry; `inactiveChannels` lists the unfiltered channels without a client. -/
theorem buildSnapshot_invariant (channels : List Channel) (clients : List Client) :
    ((buildSnapshot channels clients).channelData.map Prod.fst).Pairwise keyOrder ∧
    (∀ e ∈ (buildSnapshot channels clients).channelData,
      e.2.users = (clients.filter (fun c => c.cid = e.1)).map (fun c => c.nickname) ∧
      e.2.users ≠ [] ∧
      ∃ ch ∈ channels, isFiltered ch = false ∧ ch.cid = e.1 ∧ ch.name = e.2.name) ∧
    (∀ ch ∈ channels, isFiltered ch = false → ∀ c ∈ clients, c.cid = ch.cid →
      ch.cid ∈ (buildSnapshot channels clients).channelData.map Prod.fst) ∧
    (buildSnapshot channels clients).inactiveChannels =
      (channels.filter (fun ch => !isFiltered ch && !clients.any (fun c => c.cid = ch.cid))).map
        (fun ch => ch.name) := by
  induction channels using List.reverseRecOn with
  | nil => simp [buildSnapshot]
  | append_singleton l ch ih =>
    obtain ⟨i1, i2, i3, i4⟩ := ih
    rw [buildSnapshot_append]
    unfold snapshotStep
    by_cases hf : isFiltered ch = true
    · simp only [hf, if_true]
      refine ⟨i1, ?_, ?_, ?_⟩
      · intro e he
        obtain ⟨a, b, c2, hc2, hrest⟩ := i2 e he
        exact ⟨a, b, c2, List.mem_append_left _ hc2, hrest⟩
      · intro c2 hc2 hc2f c hc hcid
        rcases List.mem_append.mp hc2 with h | h
        · exact i3 c2 h hc2f c hc hcid
        · simp only [List.mem_singleton] at h
          subst h
          rw [hf] at hc2f; cases hc2f
      · rw [i4, List.filter_append]
        simp [hf]
    · simp only [Bool.not_eq_true] at hf
      simp only [hf, Bool.false_eq_true, if_false]
      by_cases hocc : (clients.filter (fun client => client.cid = ch.cid)).length > 0
      · simp only [hocc, if_true]
        have hany : clients.any (fun c => decide (c.cid = ch.cid)) = true := by
          obtain ⟨c, hc⟩ := List.exists_mem_of_length_pos hocc
          rw [List.mem_filter] at hc
          exact List.any_eq_true.mpr ⟨c, hc.1, hc.2⟩
        refine ⟨keyOrder_objSet _ _ _ i1, ?_, ?_, ?_⟩
        · intro e he
          rcases mem_objSet _ _ _ e he with h | h
          · subst h
            refine ⟨rfl, ?_, ch, by simp, hf, rfl, rfl⟩
            simp only [ne_eq, List.map_eq_nil_iff]
            exact List.ne_nil_of_length_pos hocc
          · obtain ⟨a, b, c2, hc2, hrest⟩ := i2 e h
            exact ⟨a, b, c2, List.mem_append_left _ hc2, hrest⟩
        · intro c2 hc2 hc2f c hc hcid
          rw [keys_objSet]
          rcases List.mem_append.mp hc2 with h | h
          · exact Or.inr (i3 c2 h hc2f c hc hcid)
          · simp only [List.mem_singleton] at h
            exact Or.inl (by rw [h])
        · rw [i4, List.filter_append]
          simp [hf, hany]
      · simp only [hocc, if_false]
        have hany : clients.any (fun c => decide (c.cid = ch.cid)) = false := by
          rw [Bool.eq_false_iff]
          intro h
          obtain ⟨c, hc1, hc2⟩ := List.any_eq_true.mp h
          exact hocc (List.length_pos_of_mem (List.mem_filter.mpr ⟨hc1, hc2⟩))
        refine ⟨i1, ?_, ?_, ?_⟩
        · intro e he
          obtain ⟨a, b, c2, hc2, hrest⟩ := i2 e he
          exact ⟨a, b, c2, List.mem_append_left _ hc2, hrest⟩
        · intro c2 hc2 hc2f c hc hcid
          rcases List.mem_append.mp hc2 with h | h
          · exact i3 c2 h hc2f c hc hcid
          · simp only [List.mem_singleton] at h
            subst h
            exfalso
            apply hocc
            exact List.length_pos_of_mem (List.mem_filter.mpr ⟨hc, by simpa using hcid⟩)
        · rw [i4, List.filter_append]
          simp [hf, hany]

/-- With distinct keys, an entry of the object is what reading its key yields. -/
theorem objGet_of_mem {V : Type} (o : JSObj V) (k : Nat) (v : V)
    (hn : (o.map Prod.fst).Nodup) (hm : (k, v) ∈ o) : objGet o k = some v := by
  induction o with
  | nil => simp at hm
  | cons p rest ih =>
    obtain ⟨k1, v1⟩ := p
    simp only [List.map_cons, List.nodup_cons] at hn
    rcases List.mem_cons.mp hm with h | h
    · cases h; simp [objGet]
    · have hk : k1 ≠ k := by
        intro heq
        subst heq
        exact hn.1 (List.mem_map_of_mem Prod.fst h)
      simp [objGet, hk, ih hn.2 h]

/-- With distinct keys, a key of the object has exactly one entry. -/
theorem one_entry_of_key {V : Type} (o : JSObj V) (k : Nat)
    (hn : (o.map Prod.fst).Nodup) (hk : k ∈ o.map Prod.fst) :
    (o.filter (fun e => e.1 = k)).length = 1 := by
  induction o with
  | nil => simp at hk
  | cons p rest ih =>
    obtain ⟨k1, v1⟩ := p
    simp only [List.map_cons, List.nodup_cons] at hn
    simp only [List.map_cons, List.mem_cons] at hk
    by_cases h : k1 = k
    · subst h
      have hnone : rest.filter (fun e => decide (e.1 = k1)) = [] := by
        rw [List.filter_eq_nil_iff]
        intro e he hek
        simp only [decide_eq_true_eq] at hek
        apply hn.1
        rw [← hek]
        exact List.mem_map_of_mem Prod.fst he
      simp [List.filter_cons, hnone]
    · have hk2 : k ∈ rest.map Prod.fst := by
        rcases hk with hk | hk
        · exact absurd hk.symm h
        · exact hk
      simp [List.filter_cons, h, ih hn.2 hk2]

/-! ## `JSON.stringify` can be read back -/

/-- A hexadecimal digit is read back. -/
theorem unhex_hexDigit (d : Nat) (hd : d < 16) : unhex (hexDigit d) = d := by
  unfold unhex hexDigit
  by_cases h : d < 10
  · have : 48 + d < 58 := by omega
    simp [h, this]
  · have : ¬ (87 + d < 58) := by omega
    simp [h, this]

/-- A `UnicodeEscape` is read back. -/
theorem unquote_unicodeEscape (u : Nat) (hu : u < 65536) (t : JSStr) :
    unquoteJSONBody (unicodeEscape u ++ t) =
      (unquoteJSONBody t).map (fun p => (u :: p.1, p.2)) := by
  have hsum : 4096 * unhex (hexDigit (u / 4096 % 16)) + 256 * unhex (hexDigit (u / 256 % 16))
      + 16 * unhex (hexDigit (u / 16 % 16)) + unhex (hexDigit (u % 16)) = u := by
    rw [unhex_hexDigit _ (Nat.mod_lt _ (by decide)), unhex_hexDigit _ (Nat.mod_lt _ (by decide)),
      unhex_hexDigit _ (Nat.mod_lt _ (by decide)), unhex_hexDigit _ (Nat.mod_lt _ (by decide))]
    omega
  simp only [unicodeEscape, List.cons_append, List.nil_append]
  rw [unquoteJSONBody.eq_def]
  simp only [show (92 : Nat) ≠ 34 by decide, if_false, if_true]
  rw [hsum]

/-- A short escape is read back. -/
theorem unquote_short (e : Nat) (he : e ≠ 117) (t : JSStr) :
    unquoteJSONBody (92 :: e :: t) =
      (unquoteJSONBody t).map (fun p => (unescape e :: p.1, p.2)) := by
  rw [unquoteJSONBody.eq_def]
  simp only [show (92 : Nat) ≠ 34 by decide, if_false, if_true, he]

/-- A character written as it is, is read back. -/
theorem unquote_plain (c : Nat) (h1 : c ≠ 34) (h2 : c ≠ 92) (t : JSStr) :
    unquoteJSONBody (c :: t) = (unquoteJSONBody t).map (fun p => (c :: p.1, p.2)) := by
  rw [unquoteJSONBody.eq_def]
  simp only [h1, h2, if_false]

/-- The closing quotation mark ends the string. -/
theorem unquote_close (r : JSStr) : unquoteJSONBody (34 :: r) = some ([], r) := by
  rw [unquoteJSONBody.eq_def]
  simp

/-- The body of a quoted string followed by the closing mark is read back. -/
theorem unquote_quote (n : Nat) : ∀ (s r : JSStr), s.length ≤ n →
    unquoteJSONBody (quoteJSONBody s ++ 34 :: r) = some (s, r) := by
  induction n with
  | zero =>
    intro s r hs
    have : s = [] := List.length_eq_zero.mp (Nat.le_zero.mp hs)
    subst this
    simp [quoteJSONBody, unquote_close]
  | succ n ih =>
    intro s r hs
    cases s with
    | nil => simp [quoteJSONBody, unquote_close]
    | cons u rest =>
      have hrest : rest.length ≤ n := by simp at hs; omega
      have ihr := ih rest r hrest
      unfold quoteJSONBody
      by_cases h8 : u = 8
      · subst h8; simp [unquote_short, ihr, unescape]
      by_cases h9 : u = 9
      · subst h9; simp [unquote_short, ihr, unescape]
      by_cases h10 : u = 10
      · subst h10; simp [unquote_short, ihr, unescape]
      by_cases h12 : u = 12
      · subst h12; simp [unquote_short, ihr, unescape]
      by_cases h13 : u = 13
      · subst h13; simp [unquote_short, ihr, unescape]
      by_cases h34 : u = 34
      · subst h34; simp [unquote_short, ihr, unescape]
      by_cases h92 : u = 92
      · subst h92; simp [unquote_short, ihr, unescape]
      simp only [h8, h9, h10, h12, h13, h34, h92, if_false]
      by_cases hlow : u < 32
      · simp only [hlow, if_true, List.append_assoc]
        rw [unquote_unicodeEscape u (by omega), ihr]
        rfl
      simp only [hlow, if_false]
      by_cases hlead : isLeadingSurrogate u = true
      · have hu : u < 65536 := by
          simp only [isLeadingSurrogate, Bool.and_eq_true, decide_eq_true_eq] at hlead
          omega
        simp only [hlead, if_true]
        cases rest with
        | nil =>
          simp only [List.append_assoc]
          rw [unquote_unicodeEscape u hu, unquote_close]
          rfl
        | cons v rest2 =>
          by_cases htrail : isTrailingSurrogate v = true
          · have hrest2 : rest2.length ≤ n := by simp at hrest; omega
            have hv : v ≠ 34 ∧ v ≠ 92 := by
              simp only [isTrailingSurrogate, Bool.and_eq_true, decide_eq_true_eq] at htrail
              omega
            simp only [htrail, if_true, List.cons_append]
            rw [unquote_plain u h34 h92, unquote_plain v hv.1 hv.2, ih rest2 r hrest2]
            rfl
          · simp only [htrail, Bool.false_eq_true, if_false, List.append_assoc]
            rw [unquote_unicodeEscape u hu, ihr]
            rfl
      simp only [hlead, Bool.false_eq_true, if_false]
      by_cases htrail : isTrailingSurrogate u = true
      · have hu : u < 65536 := by
          simp only [isTrailingSurrogate, Bool.and_eq_true, decide_eq_true_eq] at htrail
          omega
        simp only [htrail, if_true, List.append_assoc]
        rw [unquote_unicodeEscape u hu, ihr]
        rfl
      · simp only [htrail, Bool.false_eq_true, if_false, List.cons_append]
        rw [unquote_plain u h34 h92, ihr]
        rfl

/-- Two quoted strings, each followed by more text, that give the same text
are the same string followed by the same text. -/
theorem stringifyString_inj (s1 s2 r1 r2 : JSStr)
    (h : stringifyString s1 ++ r1 = stringifyString s2 ++ r2) : s1 = s2 ∧ r1 = r2 := by
  simp only [stringifyString, List.cons_append, List.append_assoc, List.singleton_append,
    List.cons.injEq, true_and, List.nil_append] at h
  have h1 := unquote_quote s1.length s1 r1 (le_refl _)
  have h2 := unquote_quote s2.length s2 r2 (le_refl _)
  rw [h, h2] at h1
  simp only [Option.some.injEq, Prod.mk.injEq] at h1
  exact ⟨h1.1.symm, h1.2.symm⟩

/-- The decimal digits of a number denote it. -/
theorem decimalValue_decimal (n : Nat) : decimalValue (decimal n) = n := by
  have haux : ∀ (fuel n : Nat) (acc : List Nat), n < fuel →
      (decimalAux fuel n acc).foldl (fun a d => 10 * a + (d - 48)) 0 =
        acc.foldl (fun a d => 10 * a + (d - 48)) n := by
    intro fuel
    induction fuel with
    | zero => intro n acc h; omega
    | succ fuel ih =>
      intro n acc h
      unfold decimalAux
      by_cases h10 : n < 10
      · simp [h10]
      · simp only [h10, if_false]
        rw [ih (n / 10) _ (by omega)]
        simp only [List.foldl_cons]
        congr 1
        omega
  unfold decimalValue decimal
  rw [haux (n + 1) n [] (by omega)]
  rfl

/-- Different numbers have different decimal digits. -/
theorem decimal_inj (a b : Nat) (h : decimal a = decimal b) : a = b := by
  rw [← decimalValue_decimal a, ← decimalValue_decimal b, h]

/-- The first element and the separated rest of a joined list. -/
theorem join_cons (sep x : JSStr) (xs : List JSStr) :
    join sep (x :: xs) = x ++ xs.flatMap (fun y => sep ++ y) := by
  induction xs generalizing x with
  | nil => simp [join]
  | cons y t ih =>
    rw [join, ih y]
    simp [List.flatMap_cons, List.append_assoc]

/-- Comma-separated texts up to a closing bracket can be told apart, when each
text starts with a quotation mark and can be told apart from what follows it. -/
theorem joined_inj {α : Type} (f : α → JSStr) (close : Nat) (h34 : close ≠ 34)
    (h44 : close ≠ 44) (hstart : ∀ x, ∃ t, f x = 34 :: t)
    (hinj : ∀ x y r1 r2, f x ++ r1 = f y ++ r2 → x = y ∧ r1 = r2)
    (l1 l2 : List α) (r1 r2 : JSStr)
    (h : join [44] (l1.map f) ++ close :: r1 = join [44] (l2.map f) ++ close :: r2) :
    l1 = l2 ∧ r1 = r2 := by
  have htail : ∀ (t1 t2 : List α),
      (t1.map f).flatMap (fun y => [44] ++ y) ++ close :: r1 =
        (t2.map f).flatMap (fun y => [44] ++ y) ++ close :: r2 → t1 = t2 ∧ r1 = r2 := by
    intro t1
    induction t1 with
    | nil =>
      intro t2 h
      cases t2 with
      | nil => simpa using h
      | cons y t =>
        simp only [List.map_nil, List.flatMap_nil, List.nil_append, List.map_cons,
          List.flatMap_cons, List.singleton_append, List.cons_append, List.cons.injEq] at h
        exact absurd h.1 h44
    | cons y1 t1 ih =>
      intro t2 h
      cases t2 with
      | nil =>
        simp only [List.map_nil, List.flatMap_nil, List.nil_append, List.map_cons,
          List.flatMap_cons, List.singleton_append, List.cons_append, List.cons.injEq] at h
        exact absurd h.1.symm h44
      | cons y2 t2 =>
        simp only [List.map_cons, List.flatMap_cons, List.singleton_append, List.cons_append,
          List.cons.injEq, true_and, List.append_assoc] at h
        obtain ⟨e1, e2⟩ := hinj _ _ _ _ h
        obtain ⟨e3, e4⟩ := ih t2 e2
        exact ⟨by rw [e1, e3], e4⟩
  cases l1 with
  | nil =>
    cases l2 with
    | nil => simpa [join] using h
    | cons x2 t2 =>
      obtain ⟨t, ht⟩ := hstart x2
      rw [List.map_cons, join_cons, ht] at h
      simp only [List.map_nil, join, List.nil_append, List.cons_append, List.cons.injEq] at h
      exact absurd h.1 h34
  | cons x1 t1 =>
    cases l2 with
    | nil =>
      obtain ⟨t, ht⟩ := hstart x1
      rw [List.map_cons, join_cons, ht] at h
      simp only [List.map_nil, join, List.nil_append, List.cons_append, List.cons.injEq] at h
      exact absurd h.1.symm h34
    | cons x2 t2 =>
      rw [List.map_cons, List.map_cons, join_cons, join_cons, List.append_assoc,
        List.append_assoc] at h
      obtain ⟨e1, e2⟩ := hinj _ _ _ _ h
      obtain ⟨e3, e4⟩ := htail t1 t2 e2
      exact ⟨by rw [e1, e3], e4⟩

/-- Two serialised string arrays, each followed by more text, that give the
same text are the same array followed by the same text. -/
theorem stringifyStrings_inj (l1 l2 : List JSStr) (r1 r2 : JSStr)
    (h : stringifyStrings l1 ++ r1 = stringifyStrings l2 ++ r2) : l1 = l2 ∧ r1 = r2 := by
  have e1 : lit "[" = [91] := by decide
  have e2 : lit "," = [44] := by decide
  have e3 : lit "]" = [93] := by decide
  simp only [stringifyStrings, e1, e2, e3, List.cons_append, List.append_assoc,
    List.singleton_append, List.nil_append, List.cons.injEq, true_and] at h
  exact joined_inj stringifyString 93 (by decide) (by decide)
    (fun x => ⟨_, rfl⟩) stringifyString_inj l1 l2 r1 r2 h

/-- The same for a serialised `{ name, users }` object. -/
theorem stringifyGroup_inj (g1 g2 : Group) (r1 r2 : JSStr)
    (h : stringifyGroup g1 ++ r1 = stringifyGroup g2 ++ r2) : g1 = g2 ∧ r1 = r2 := by
  simp only [stringifyGroup, List.append_assoc] at h
  have h1 := List.append_cancel_left h
  obtain ⟨a1, a2⟩ := stringifyString_inj _ _ _ _ h1
  have h2 := List.append_cancel_left a2
  obtain ⟨b1, b2⟩ := stringifyStrings_inj _ _ _ _ h2
  have h3 := List.append_cancel_left b2
  cases g1; cases g2
  simp only at a1 b1
  subst a1 b1
  exact ⟨rfl, h3⟩

/-- The same for one member of the serialised `channelData`. -/
theorem stringifyEntry_inj (x1 x2 : Nat × Group) (r1 r2 : JSStr)
    (h : stringifyEntry x1 ++ r1 = stringifyEntry x2 ++ r2) : x1 = x2 ∧ r1 = r2 := by
  simp only [stringifyEntry, List.append_assoc] at h
  obtain ⟨a1, a2⟩ := stringifyString_inj _ _ _ _ h
  have h2 := List.append_cancel_left a2
  obtain ⟨b1, b2⟩ := stringifyGroup_inj _ _ _ _ h2
  exact ⟨Prod.ext (decimal_inj _ _ a1) b1, b2⟩

/-- The same for the serialised `channelData`. -/
theorem stringifyChannelData_inj (o1 o2 : JSObj Group) (r1 r2 : JSStr)
    (h : stringifyChannelData o1 ++ r1 = stringifyChannelData o2 ++ r2) : o1 = o2 ∧ r1 = r2 := by
  have e1 : lit "\x7b" = [123] := by decide
  have e2 : lit "," = [44] := by decide
  have e3 : lit "\x7d" = [125] := by decide
  simp only [stringifyChannelData, e1, e2, e3, List.cons_append, List.append_assoc,
    List.singleton_append, List.nil_append, List.cons.injEq, true_and] at h
  exact joined_inj stringifyEntry 125 (by decide) (by decide)
    (fun x => ⟨_, rfl⟩) stringifyEntry_inj o1 o2 r1 r2 h

/-- Snapshots with the same fingerprint are the same snapshot. -/
theorem fingerprint_inj (s1 s2 : Snapshot) (h : fingerprint s1 = fingerprint s2) : s1 = s2 := by
  simp only [fingerprint, List.append_assoc] at h
  have h1 := List.append_cancel_left h
  obtain ⟨a1, a2⟩ := stringifyChannelData_inj _ _ _ _ h1
  have h2 := List.append_cancel_left a2
  obtain ⟨b1, _⟩ := stringifyStrings_inj _ _ _ _ h2
  cases s1; cases s2
  simp only at a1 b1
  subst a1 b1
  rfl

/-! ## Edit-rate guard -/

/-- `updateStatusEmbed` sets `lastEmbedEdit` to the instant read after the edit,
or leaves it. -/
theorem updateStatusEmbed_lastEmbedEdit (s : State) (force : Bool) (env : EmbedEnv) :
    (updateStatusEmbed s force env).1.lastEmbedEdit = s.lastEmbedEdit ∨
    (updateStatusEmbed s force env).1.lastEmbedEdit = env.editedAt := by
  unfold updateStatusEmbed
  by_cases h1 : (!s.tsClient || !s.statusEmbed.messageId.truthy) = true
  · simp [h1]
  · rw [if_neg h1]
    rcases hq : env.query with _ | ⟨channels, clients⟩
    · simp
    · simp only
      split
      · simp
      · obtain ⟨q, u, cf, mf, eo, ea, wo⟩ := env
        cases cf <;> cases mf <;> cases eo <;>
          simp [applyEdit, markRendered, resetEmbedStatus, saveEmbedData]

/-- An event stores in `lastEmbedEdit` one of its own clock readings, or leaves it. -/
theorem step_lastEmbedEdit (s : State) (e : Event) :
    (step s e).1.lastEmbedEdit = s.lastEmbedEdit ∨ (step s e).1.lastEmbedEdit ∈ e.readings := by
  cases e with
  | tick env =>
    simp only [step, tick, Event.readings]
    by_cases hg : embedGate (tickCount s env).1 env.now = true
    · simp [hg]
    · simp only [hg]
      left
      exact (tickCount_frame s env).2.2.2.1
  | dirty => simp [step]
  | session connected => simp [step]
  | messageDelete id writeOk =>
    simp only [step]
    split <;> simp [resetEmbedStatus, saveEmbedData]
  | create env =>
    simp only [step, createStatusEmbed, Event.readings]
    by_cases h1 : (!s.tsClient) = true
    · simp [h1]
    · rw [if_neg h1]
      rcases hq : env.sent with _ | sentId
      · simp
      · simp

/-- After a state whose `lastEmbedEdit` is at least `L`, with every later clock
reading at least `L`, every tick that calls `updateStatusEmbed` does so at
`L + 5000` or later. -/
theorem tickInvocations_lower (events : List Event) (s : State) (L : Int)
    (hs : L ≤ s.lastEmbedEdit) (hr : ∀ r ∈ events.flatMap Event.readings, L ≤ r) :
    ∀ t ∈ tickInvocations s events, L + 5000 ≤ t := by
  induction events generalizing s with
  | nil => simp [tickInvocations]
  | cons e rest ih =>
    have hr1 : ∀ r ∈ e.readings, L ≤ r := fun r h => hr r (by simp [List.flatMap_cons, h])
    have hr2 : ∀ r ∈ rest.flatMap Event.readings, L ≤ r :=
      fun r h => hr r (by rw [List.flatMap_cons]; exact List.mem_append_right _ h)
    have hnext : L ≤ (step s e).1.lastEmbedEdit := by
      rcases step_lastEmbedEdit s e with h | h
      · rw [h]; exact hs
      · exact hr1 _ h
    have hrest := ih (step s e).1 hnext hr2
    cases e with
    | tick env =>
      intro t ht
      simp only [tickInvocations, List.mem_append] at ht
      rcases ht with ht | ht
      · by_cases hi : tickInvokes s env = true
        · simp only [hi, if_true, List.mem_singleton] at ht
          subst ht
          unfold tickInvokes at hi
          rw [(embedGate_tickCount s env).1] at hi
          simp only [embedGate, Bool.and_eq_true, decide_eq_true_eq] at hi
          omega
        · simp [hi] at ht
      · exact hrest t ht
    | dirty => exact hrest
    | session connected => exact hrest
    | messageDelete id writeOk => exact hrest
    | create env => exact hrest

/-- Instants pairwise 5000 ms apart: a window shorter than that holds at most one. -/
theorem window_of_spaced (l : List Int) (d : Int)
    (h : l.Pairwise (fun a b => a + d ≤ b)) (w : Int) :
    (l.filter (fun t => decide (w ≤ t) && decide (t < w + d))).length ≤ 1 := by
  induction l with
  | nil => simp
  | cons a t ih =>
    rw [List.pairwise_cons] at h
    by_cases ha : w ≤ a ∧ a < w + d
    · have ht : t.filter (fun t => decide (w ≤ t) && decide (t < w + d)) = [] := by
        rw [List.filter_eq_nil_iff]
        intro b hb
        have := h.1 b hb
        have h2 : ¬ b < w + d := by omega
        simp [h2]
      simp [List.filter_cons, ha, ht]
    · have hf : (decide (w ≤ a) && decide (a < w + d)) = false := by
        simp only [not_and, not_lt] at ha
        by_cases hwa : w ≤ a
        · have h2 : ¬ a < w + d := by have := ha hwa; omega
          simp [h2]
        · simp [hwa]
      rw [List.filter_cons, hf]
      exact ih h.2

/-- One run of `updateStatusEmbed` edits the message at most once. -/
theorem updateStatusEmbed_one_edit (s : State) (force : Bool) (env : EmbedEnv) :
    ((updateStatusEmbed s force env).2.filter Action.isEdit).length ≤ 1 := by
  unfold updateStatusEmbed
  by_cases h1 : (!s.tsClient || !s.statusEmbed.messageId.truthy) = true
  · simp [h1]
  · rw [if_neg h1]
    rcases hq : env.query with _ | ⟨channels, clients⟩
    · simp [Action.isEdit]
    · simp only
      split
      · simp [Action.isEdit]
      · obtain ⟨q, u, cf, mf, eo, ea, wo⟩ := env
        cases cf <;> cases mf <;> cases eo <;>
          simp [applyEdit, markRendered, resetEmbedStatus, saveEmbedData, Action.isEdit,
            List.filter_cons]

/-- The count refresh edits no message. -/
theorem tickCount_no_edit (s : State) (env : TickEnv) :
    (tickCount s env).2.filter Action.isEdit = [] := by
  rw [List.filter_eq_nil_iff]
  intro a ha
  rcases tickCount_actions s env a ha with h | ⟨n, h⟩ <;> subst h <;> simp [Action.isEdit]

/-- A tick edits the message at most once, and only when it calls
`updateStatusEmbed`. -/
theorem tick_one_edit (s : State) (env : TickEnv) :
    ((tick s env).2.filter Action.isEdit).length ≤ 1 ∧
    ((tick s env).2.any Action.isEdit = true → tickInvokes s env = true) := by
  unfold tick tickInvokes
  by_cases hg : embedGate (tickCount s env).1 env.now = true
  · simp only [hg, if_true, List.filter_append, tickCount_no_edit, List.nil_append, implies_true,
      and_true]
    exact updateStatusEmbed_one_edit _ _ _
  · simp only [hg, Bool.false_eq_true, if_false, tickCount_no_edit, List.length_nil,
      Nat.zero_le, true_and]
    intro h
    obtain ⟨a, ha, hedit⟩ := List.any_eq_true.mp h
    have : a ∈ (tickCount s env).2.filter Action.isEdit := List.mem_filter.mpr ⟨ha, hedit⟩
    rw [tickCount_no_edit] at this
    simp at this

/-- The ticks that edit are among the ticks that call `updateStatusEmbed`. -/
theorem editInstants_sublist (events : List Event) (s : State) :
    (editInstants s events).Sublist (tickInvocations s events) := by
  induction events generalizing s with
  | nil => simp [editInstants, tickInvocations]
  | cons e rest ih =>
    cases e with
    | tick env =>
      simp only [editInstants, tickInvocations]
      apply List.Sublist.append _ (ih _)
      by_cases he : (tick s env).2.any Action.isEdit = true
      · simp [he, (tick_one_edit s env).2 he]
      · simp [he]
    | dirty => exact ih _
    | session connected => exact ih _
    | messageDelete id writeOk => exact ih _
    | create env => exact ih _

/-- C1. Over every sequence of scheduler ticks, dirty triggers, session
changes, delete notifications and creation commands in which the clock never
goes back, from any state, any two ticks that call `updateStatusEmbed` read
instants `now` at least 5000 ms apart; hence every window of less than 5000 ms
holds at most one such tick, however many dirty triggers arrive in it. A tick
edits the message at most once and only when it calls `updateStatusEmbed`, so
the ticks that edit are 5000 ms apart as well and a window of less than 5000 ms
holds at most one edit by a tick. -/
theorem edit_rate_guard (s : State) (events : List Event) (hclock : clockMonotone events) :
    (tickInvocations s events).Pairwise (fun a b => a + 5000 ≤ b) ∧
    (∀ w : Int, ((tickInvocations s events).filter
      (fun t => decide (w ≤ t) && decide (t < w + 5000))).length ≤ 1) ∧
    (editInstants s events).Pairwise (fun a b => a + 5000 ≤ b) ∧
    (∀ w : Int, ((editInstants s events).filter
      (fun t => decide (w ≤ t) && decide (t < w + 5000))).length ≤ 1) ∧
    (∀ (s2 : State) (env : TickEnv), ((tick s2 env).2.filter Action.isEdit).length ≤ 1) := by
  have hpair : (tickInvocations s events).Pairwise (fun a b => a + 5000 ≤ b) := by
    induction events generalizing s with
    | nil => simp [tickInvocations]
    | cons e rest ih =>
      unfold clockMonotone at hclock
      rw [List.flatMap_cons, List.pairwise_append] at hclock
      obtain ⟨h1, h2, h3⟩ := hclock
      have hrest := ih (step s e).1 h2
      cases e with
      | tick env =>
        simp only [tickInvocations]
        by_cases hi : tickInvokes s env = true
        · simp only [hi, if_true, List.singleton_append, List.pairwise_cons]
          refine ⟨?_, hrest⟩
          have hfin : env.now ≤ env.finishedAt := by
            simp only [Event.readings, List.pairwise_cons] at h1
            exact h1.1 env.finishedAt (by simp)
          have hstate : (step s (Event.tick env)).1.lastEmbedEdit = env.finishedAt := by
            unfold tickInvokes at hi
            simp [step, tick, hi]
          apply tickInvocations_lower rest (step s (Event.tick env)).1 env.now
          · rw [hstate]; exact hfin
          · intro r hr
            exact h3 env.now (by simp [Event.readings]) r hr
        · simp only [hi, Bool.false_eq_true, if_false, List.nil_append]
          exact hrest
      | dirty => exact hrest
      | session connected => exact hrest
      | messageDelete id writeOk => exact hrest
      | create env => exact hrest
  have hedit := List.Pairwise.sublist (editInstants_sublist events s) hpair
  exact ⟨hpair, window_of_spaced _ 5000 hpair, hedit, window_of_spaced _ 5000 hedit,
    fun s2 env => (tick_one_edit s2 env).1⟩

/-- An instance of `edit_rate_guard`: of the ticks at 20000, 22000 and 25000,
each preceded by dirty triggers, the one at 22000 does not call
`updateStatusEmbed`. -/
theorem edit_rate_guard_witness :
    tickInvocations sampleState sampleEvents = [20000, 25000] ∧
    editInstants sampleState sampleEvents = [20000, 25000] ∧
    (tickInvocations sampleState sampleEvents).Pairwise (fun a b => a + 5000 ≤ b) :=
  ⟨by decide, by decide,
    (edit_rate_guard sampleState sampleEvents (by unfold clockMonotone; decide)).1⟩

/-! ## Rename guard -/

/-- An element of a list is at most its maximum. -/
theorem le_maxTime (l : List Int) (x : Int) (hx : x ∈ l) : x ≤ maxTime l := by
  have hfold : ∀ (l : List Int) (a : Int), a ≤ l.foldl max a ∧ ∀ y ∈ l, y ≤ l.foldl max a := by
    intro l
    induction l with
    | nil => intro a; simp
    | cons b t ih =>
      intro a
      obtain ⟨h1, h2⟩ := ih (max a b)
      refine ⟨le_trans (le_max_left a b) h1, ?_⟩
      intro y hy
      rcases List.mem_cons.mp hy with h | h
      · subst h; exact le_trans (le_max_right a y) h1
      · exact h2 y h
  cases l with
  | nil => simp at hx
  | cons a t =>
    rcases List.mem_cons.mp hx with h | h
    · subst h; exact (hfold t x).1
    · exact (hfold t a).2 x h

/-- What one run of `updateCountChannelName` does to the rename history. -/
theorem updateCountChannelName_history (s : State) (env : CountEnv) :
    (countRenames s env = false ∧
      ((updateCountChannelName s env).1.recentRenames = s.recentRenames ∨
        (updateCountChannelName s env).1.recentRenames =
          s.recentRenames.filter (fun time => env.now - time < 600000))) ∨
    (countRenames s env = true ∧
      renameAllowed (s.recentRenames.filter (fun time => env.now - time < 600000)) env.now = true ∧
      (updateCountChannelName s env).1.recentRenames =
        s.recentRenames.filter (fun time => env.now - time < 600000) ++ [env.now]) := by
  unfold countRenames updateCountChannelName
  by_cases h1 : (!s.countChannel || !s.tsClient) = true
  · simp [h1]
  · rw [if_neg h1]
    rcases hq : env.query with _ | ⟨channels, clients⟩
    · simp [Action.isRename]
    · simp only
      by_cases h2 : s.lastCount = some (occupantCount channels clients)
      · simp [h2, Action.isRename]
      · rw [if_neg h2]
        by_cases h3 : renameAllowed
            (s.recentRenames.filter (fun time => env.now - time < 600000)) env.now = true
        · cases h4 : env.setNameOk <;> simp [h3, Action.isRename]
        · simp [h3, Action.isRename]

/-- The run over a sequence extended by one more call. -/
theorem countRun_append (l : List CountEnv) (s : State) (env : CountEnv) :
    countRun s (l ++ [env]) = (updateCountChannelName (countRun s l) env).1 ∧
    renameInstants s (l ++ [env]) =
      renameInstants s l ++ (if countRenames (countRun s l) env then [env.now] else []) := by
  induction l generalizing s with
  | nil => simp [countRun, renameInstants]
  | cons e t ih =>
    obtain ⟨i1, i2⟩ := ih (updateCountChannelName s e).1
    refine ⟨?_, ?_⟩
    · show countRun (updateCountChannelName s e).1 (t ++ [env]) = _
      rw [i1]; rfl
    · show (if countRenames s e then [e.now] else []) ++
        renameInstants (updateCountChannelName s e).1 (t ++ [env]) = _
      rw [i2, ← List.append_assoc]; rfl

/-- The three facts carried along a sequence of calls: the pruned history is
the pruned list of all renames, consecutive renames are 61000 ms apart, and a
window of 600000 ms holds at most two renames. -/
theorem rename_invariant (l : List CountEnv) (s : State) (hs : s.recentRenames = [])
    (hl : (l.map (fun env => env.now)).Pairwise (fun a b => a ≤ b)) :
    (∀ n : Int, (∀ e ∈ l, e.now ≤ n) →
      (countRun s l).recentRenames.filter (fun time => n - time < 600000) =
        (renameInstants s l).filter (fun time => n - time < 600000)) ∧
    (renameInstants s l).Chain' (fun a b => a + 61000 ≤ b) ∧
    (∀ w : Int, ((renameInstants s l).filter
      (fun t => decide (w ≤ t) && decide (t < w + 600000))).length ≤ 2) := by
  induction l using List.reverseRecOn with
  | nil => simp [countRun, renameInstants, hs]
  | append_singleton l env ih =>
    rw [List.map_append, List.pairwise_append] at hl
    obtain ⟨hl1, _, hl3⟩ := hl
    obtain ⟨J, P1, P2⟩ := ih hl1
    have hbound : ∀ e ∈ l, e.now ≤ env.now := by
      intro e he
      exact hl3 e.now (List.mem_map_of_mem _ he) env.now (by simp)
    obtain ⟨c1, c2⟩ := countRun_append l s env
    have hrecent := J env.now hbound
    have hprune : ∀ n : Int, env.now ≤ n → ∀ (xs : List Int),
        (xs.filter (fun time => env.now - time < 600000)).filter (fun time => n - time < 600000)
          = xs.filter (fun time => n - time < 600000) := by
      intro n hn xs
      rw [List.filter_filter]
      apply List.filter_congr
      intro x _
      by_cases hx : n - x < 600000
      · have : env.now - x < 600000 := by omega
        simp [hx, this]
      · simp [hx]
    rcases updateCountChannelName_history (countRun s l) env with ⟨hr, hh⟩ | ⟨hr, hallow, hh⟩
    · rw [c1, c2, hr]
      simp only [Bool.false_eq_true, if_false, List.append_nil]
      refine ⟨?_, P1, P2⟩
      intro n hn
      have hn1 : ∀ e ∈ l, e.now ≤ n := fun e he => hn e (List.mem_append_left _ he)
      have hn2 : env.now ≤ n := hn env (by simp)
      rcases hh with hh | hh
      · rw [hh]; exact J n hn1
      · rw [hh, hprune n hn2]; exact J n hn1
    · rw [c1, c2, hr, hh]
      simp only [if_true]
      have hlen : ((renameInstants s l).filter (fun time => env.now - time < 600000)).length < 2 := by
        rw [← hrecent]
        simp only [renameAllowed, Bool.and_eq_true, decide_eq_true_eq] at hallow
        exact hallow.2
      refine ⟨?_, ?_, ?_⟩
      · intro n hn
        have hn1 : ∀ e ∈ l, e.now ≤ n := fun e he => hn e (List.mem_append_left _ he)
        have hn2 : env.now ≤ n := hn env (by simp)
        rw [List.filter_append, List.filter_append, hprune n hn2, J n hn1]
      · rw [List.chain'_append]
        refine ⟨P1, List.chain'_singleton _, ?_⟩
        intro x hx y hy
        simp only [List.head?_cons, Option.mem_def, Option.some.injEq] at hy
        subst hy
        have hxmem : x ∈ renameInstants s l := List.mem_of_mem_getLast? hx
        by_cases hfar : env.now - x < 600000
        · have hxr : x ∈ (countRun s l).recentRenames.filter (fun time => env.now - time < 600000) := by
            rw [hrecent]
            exact List.mem_filter.mpr ⟨hxmem, by simpa using hfar⟩
          have hmax := le_maxTime _ x hxr
          have hne : ((countRun s l).recentRenames.filter
              (fun time => env.now - time < 600000)).length > 0 :=
            List.length_pos_of_mem hxr
          simp only [renameAllowed, hne, if_true, Bool.and_eq_true, decide_eq_true_eq] at hallow
          omega
        · omega
      · intro w
        rw [List.filter_append, List.length_append]
        by_cases hin : w ≤ env.now ∧ env.now < w + 600000
        · have hsub : (renameInstants s l).filter
              (fun t => decide (w ≤ t) && decide (t < w + 600000)) =
              ((renameInstants s l).filter (fun time => env.now - time < 600000)).filter
                (fun t => decide (w ≤ t) && decide (t < w + 600000)) := by
            rw [List.filter_filter]
            apply List.filter_congr
            intro x _
            by_cases hx : w ≤ x ∧ x < w + 600000
            · have : env.now - x < 600000 := by omega
              simp [hx, this]
            · have : ¬ (w ≤ x ∧ x < w + 600000) := hx
              simp only [not_and, not_lt] at this
              by_cases hwx : w ≤ x
              · have := this hwx
                have h2 : ¬ x < w + 600000 := by omega
                simp [h2]
              · simp [hwx]
          rw [hsub]
          have h1 := List.length_filter_le (fun t => decide (w ≤ t) && decide (t < w + 600000))
            ((renameInstants s l).filter (fun time => env.now - time < 600000))
          have h2 : ([env.now].filter (fun t => decide (w ≤ t) && decide (t < w + 600000))).length
              ≤ 1 := by
            have := List.length_filter_le (fun t => decide (w ≤ t) && decide (t < w + 600000)) [env.now]
            simpa using this
          omega
        · have h2 : [env.now].filter (fun t => decide (w ≤ t) && decide (t < w + 600000)) = [] := by
            simp only [not_and, not_lt] at hin
            by_cases hwx : w ≤ env.now
            · have := hin hwx
              have h3 : ¬ env.now < w + 600000 := by omega
              simp [h3]
            · simp [hwx]
          rw [h2]
          have := P2 w
          simpa using this

/-- C2. Starting from an empty rename history, over every sequence of runs of
`updateCountChannelName` with non-decreasing timestamps, whatever the counts
and the outcomes of the external calls, every two consecutive renames are at
least 61000 ms apart and every window of 600000 ms, from any instant `w`
up to but not including `w + 600000`, holds at most two renames. -/
theorem rename_guard (s : State) (calls : List CountEnv) (hs : s.recentRenames = [])
    (hclock : (calls.map (fun env => env.now)).Pairwise (fun a b => a ≤ b)) :
    (renameInstants s calls).Chain' (fun a b => a + 61000 ≤ b) ∧
    ∀ w : Int, ((renameInstants s calls).filter
      (fun t => decide (w ≤ t) && decide (t < w + 600000))).length ≤ 2 :=
  (rename_invariant calls s hs hclock).2

/-- An instance of `rename_guard`: of five runs at 20000, 30000, 90000, 200000
and 620000 with changing counts, those at 20000, 90000 and 620000 rename. -/
theorem rename_guard_witness :
    renameInstants sampleState sampleCalls = [20000, 90000, 620000] ∧
    (renameInstants sampleState sampleCalls).Chain' (fun a b => a + 61000 ≤ b) ∧
    ∀ w : Int, ((renameInstants sampleState sampleCalls).filter
      (fun t => decide (w ≤ t) && decide (t < w + 600000))).length ≤ 2 :=
  ⟨by decide, rename_guard sampleState sampleCalls rfl (by decide)⟩

/-! ## Missing display -/

/-- Once the display reference is cleared, an event other than the creation
command leaves it cleared, leaves the data file alone and attempts no edit. -/
theorem step_cleared (s : State) (e : Event) (hs : s.statusEmbed = DisplayRef.cleared)
    (he : ∀ c, e ≠ Event.create c) :
    (step s e).1.statusEmbed = DisplayRef.cleared ∧
    (step s e).1.embedDataFile = s.embedDataFile ∧
    ∀ a ∈ (step s e).2, a.isEditAttempt = false := by
  cases e with
  | tick env =>
    have hfalsy : s.statusEmbed.messageId.truthy = false := by rw [hs]; rfl
    obtain ⟨f1, f2, _, _, _, _⟩ := tickCount_frame s env
    have hg : embedGate (tickCount s env).1 env.now = false := by
      rw [(embedGate_tickCount s env).1]; exact embedGate_falsy s env.now hfalsy
    simp only [step, tick, hg]
    refine ⟨by simpa [f1] using hs, by simpa using f2, ?_⟩
    intro a ha
    rcases tickCount_actions s env a (by simpa using ha) with h | ⟨n, h⟩ <;> subst h <;> rfl
  | dirty => simp [step, hs]
  | session connected => simp [step, hs]
  | messageDelete id writeOk => simp [step, hs, DisplayRef.cleared]
  | create c => exact absurd rfl (he c)

/-- The same over a sequence of events. -/
theorem run_cleared (events : List Event) (s : State) (hs : s.statusEmbed = DisplayRef.cleared)
    (he : ∀ e ∈ events, ∀ c, e ≠ Event.create c) :
    (run s events).1.statusEmbed = DisplayRef.cleared ∧
    (run s events).1.embedDataFile = s.embedDataFile ∧
    ∀ a ∈ (run s events).2, a.isEditAttempt = false := by
  induction events generalizing s with
  | nil => simp [run, hs]
  | cons e rest ih =>
    obtain ⟨h1, h2, h3⟩ := step_cleared s e hs (he e (List.mem_cons_self _ _))
    obtain ⟨i1, i2, i3⟩ := ih (step s e).1 h1 (fun e2 h2 => he e2 (List.mem_cons_of_mem _ h2))
    simp only [run]
    refine ⟨i1, by rw [i2, h2], ?_⟩
    intro a ha
    rcases List.mem_append.mp ha with ha | ha
    · exact h3 a ha
    · exact i3 a ha

/-- The inner block, when the channel, the message or the edit is reported
absent: the display reference is cleared and the cleared record is written. -/
theorem applyEdit_absent (s : State) (snap : Snapshot) (env : EmbedEnv)
    (h : env.channelFound = false ∨ env.messageFound = false ∨ env.editOk = false) :
    (applyEdit s snap env).1.statusEmbed = DisplayRef.cleared ∧
    (applyEdit s snap env).2.getLast? = some (Action.writeFile DisplayRef.cleared) ∧
    (∀ r, Action.writeFile r ∈ (applyEdit s snap env).2 → r = DisplayRef.cleared) ∧
    (applyEdit s snap env).1.embedDataFile =
      (if env.writeOk then File.record DisplayRef.cleared else s.embedDataFile) := by
  obtain ⟨q, u, cf, mf, eo, ea, wo⟩ := env
  cases cf <;> cases mf <;> cases eo <;> simp at h <;>
    simp [applyEdit, resetEmbedStatus, saveEmbedData]

/-- C3. When `updateStatusEmbed` gets as far as the edit (session handle and
message id present, query answered, update forced or fingerprint changed) and
the channel fetch, the message fetch or the edit fails, then afterwards all
five fields of `state.statusEmbed` are `null`; the last thing the call does is
hand that cleared record to `fs.writeFile`, it hands over no other record, and
the data file holds the cleared record once that write has succeeded (a write
that fails is logged and leaves the file as it was); and over every later
sequence of ticks, dirty triggers, session changes and delete notifications
without a creation command, no channel fetch, message fetch or edit is
performed, and the display reference and the data file stay as they are. -/
theorem missing_display_self_heal (s : State) (force : Bool) (env : EmbedEnv)
    (channels : List Channel) (clients : List Client) (events : List Event)
    (hts : s.tsClient = true) (hid : s.statusEmbed.messageId.truthy = true)
    (hq : env.query = some (channels, clients))
    (hattempt : force = true ∨
      s.statusEmbed.lastState ≠ JSVal.val (fingerprint (buildSnapshot channels clients)))
    (habsent : env.channelFound = false ∨ env.messageFound = false ∨ env.editOk = false)
    (hevents : ∀ e ∈ events, ∀ c, e ≠ Event.create c) :
    (updateStatusEmbed s force env).1.statusEmbed = DisplayRef.cleared ∧
    (updateStatusEmbed s force env).2.getLast? = some (Action.writeFile DisplayRef.cleared) ∧
    (∀ r, Action.writeFile r ∈ (updateStatusEmbed s force env).2 → r = DisplayRef.cleared) ∧
    (updateStatusEmbed s force env).1.embedDataFile =
      (if env.writeOk then File.record DisplayRef.cleared else s.embedDataFile) ∧
    (∀ a ∈ (run (updateStatusEmbed s force env).1 events).2, a.isEditAttempt = false) ∧
    (run (updateStatusEmbed s force env).1 events).1.statusEmbed = DisplayRef.cleared ∧
    (run (updateStatusEmbed s force env).1 events).1.embedDataFile =
      (if env.writeOk then File.record DisplayRef.cleared else s.embedDataFile) := by
  have hcond : ¬ ((!force && decide (s.statusEmbed.lastState =
      JSVal.val (fingerprint (buildSnapshot channels clients)))) = true) := by
    rcases hattempt with h | h
    · simp [h]
    · simp [h]
  have hu : updateStatusEmbed s force env =
      ((applyEdit (markRendered s (fingerprint (buildSnapshot channels clients)) env.updatedAt)
          (buildSnapshot channels clients) env).1,
        [Action.queryTeamSpeak] ++
          (applyEdit (markRendered s (fingerprint (buildSnapshot channels clients)) env.updatedAt)
            (buildSnapshot channels clients) env).2) := by
    unfold updateStatusEmbed
    simp only [hts, hid, hq]
    simp only [Bool.not_true, Bool.or_self, Bool.false_eq_true, if_false]
    rw [if_neg hcond]
  obtain ⟨a1, a2, a3, a4⟩ := applyEdit_absent
    (markRendered s (fingerprint (buildSnapshot channels clients)) env.updatedAt)
    (buildSnapshot channels clients) env habsent
  have a5 : (markRendered s (fingerprint (buildSnapshot channels clients))
      env.updatedAt).embedDataFile = s.embedDataFile := rfl
  rw [a5] at a4
  obtain ⟨r1, r2, r3⟩ := run_cleared events (updateStatusEmbed s force env).1
    (by rw [hu]; exact a1) hevents
  refine ⟨by rw [hu]; exact a1, ?_, ?_, by rw [hu]; exact a4, r3, r1, ?_⟩
  · rw [hu]
    simp only [List.singleton_append]
    cases hl : (applyEdit (markRendered s (fingerprint (buildSnapshot channels clients))
        env.updatedAt) (buildSnapshot channels clients) env).2 with
    | nil => rw [hl] at a2; simp at a2
    | cons x t => rw [hl] at a2; simpa [List.getLast?_cons_cons] using a2
  · intro r hr
    rw [hu] at hr
    simp only [List.singleton_append, List.mem_cons] at hr
    rcases hr with hr | hr
    · cases hr
    · exact a3 r hr
  · rw [r2, hu]; exact a4

/-- An instance of `missing_display_self_heal`: the message is gone, and a
tick, a dirty trigger and another tick follow. -/
theorem missing_display_self_heal_witness :
    (updateStatusEmbed sampleState true { sampleEmbedEnv with messageFound := false }).1.statusEmbed
      = DisplayRef.cleared ∧
    (updateStatusEmbed sampleState true
      { sampleEmbedEnv with messageFound := false }).1.embedDataFile
      = File.record DisplayRef.cleared ∧
    ∀ a ∈ (run (updateStatusEmbed sampleState true
        { sampleEmbedEnv with messageFound := false }).1
        [Event.tick sampleTickEnv, Event.dirty,
          Event.tick { sampleTickEnv with now := 40000, finishedAt := 40000 }]).2,
      a.isEditAttempt = false :=
  have h := missing_display_self_heal sampleState true
    { sampleEmbedEnv with messageFound := false } sampleChannels sampleClients
    [Event.tick sampleTickEnv, Event.dirty,
      Event.tick { sampleTickEnv with now := 40000, finishedAt := 40000 }]
    rfl (by decide) rfl (Or.inl rfl) (Or.inr (Or.inl rfl)) (by
      intro e he c hc
      subst hc
      simp at he)
  ⟨h.1, h.2.2.2.1, h.2.2.2.2.1⟩

/-! ## Filter correctness -/

/-- C4. A channel whose name contains `spacer` or `Server Query`, or that is
flagged default, contributes nothing to the snapshot, whatever clients it
has: the snapshot is the one built from the channel list without it, every
entry of `channelData` carries the id and the name of an unfiltered channel
and every name in `inactiveChannels` is the name of an unfiltered channel.
For the channels Lobby (default), spacer-1 and Gaming with client `a` in
Lobby and `b` in Gaming, `channelData` holds Gaming with member `b` alone
and `inactiveChannels` is empty. -/
theorem filter_correctness (before after : List Channel) (ch : Channel) (clients : List Client)
    (h : includes ch.name (lit "spacer") = true ∨ includes ch.name (lit "Server Query") = true ∨
      ch.flagDefault = true) :
    buildSnapshot (before ++ ch :: after) clients = buildSnapshot (before ++ after) clients ∧
    (∀ e ∈ (buildSnapshot (before ++ ch :: after) clients).channelData,
      ∃ c ∈ before ++ after, isFiltered c = false ∧ c.cid = e.1 ∧ c.name = e.2.name) ∧
    (∀ n ∈ (buildSnapshot (before ++ ch :: after) clients).inactiveChannels,
      ∃ c ∈ before ++ after, isFiltered c = false ∧ c.name = n) ∧
    buildSnapshot sampleChannels sampleClients =
      { channelData := [(3, { name := lit "Gaming", users := [lit "b"] })],
        inactiveChannels := [] } := by
  have hf : isFiltered ch = true := by
    unfold isFiltered CONFIG_ignoreDefaultChannel
    rcases h with h | h | h <;> simp [h]
  have heq : buildSnapshot (before ++ ch :: after) clients =
      buildSnapshot (before ++ after) clients := by
    simp [buildSnapshot, List.foldl_append, snapshotStep, hf]
  obtain ⟨_, i2, _, i4⟩ := buildSnapshot_invariant (before ++ after) clients
  refine ⟨heq, ?_, ?_, by decide⟩
  · intro e he
    rw [heq] at he
    obtain ⟨_, _, c, hc, hrest⟩ := i2 e he
    exact ⟨c, hc, hrest⟩
  · intro n hn
    rw [heq, i4] at hn
    obtain ⟨c, hc, hname⟩ := List.mem_map.mp hn
    rw [List.mem_filter] at hc
    refine ⟨c, hc.1, ?_, hname⟩
    have := hc.2
    simp only [Bool.and_eq_true, Bool.not_eq_true'] at this
    exact this.1

/-- An instance of `filter_correctness`: spacer-1 between Lobby and Gaming. -/
theorem filter_correctness_witness :
    buildSnapshot
        ([{ cid := 1, name := lit "Lobby", flagDefault := true }] ++
          { cid := 2, name := lit "spacer-1", flagDefault := false } ::
            [{ cid := 3, name := lit "Gaming", flagDefault := false }]) sampleClients =
      buildSnapshot
        ([{ cid := 1, name := lit "Lobby", flagDefault := true }] ++
          [{ cid := 3, name := lit "Gaming", flagDefault := false }]) sampleClients :=
  (filter_correctness [{ cid := 1, name := lit "Lobby", flagDefault := true }]
    [{ cid := 3, name := lit "Gaming", flagDefault := false }]
    { cid := 2, name := lit "spacer-1", flagDefault := false } sampleClients
    (Or.inl (by decide))).1

/-! ## Snapshot membership -/

/-- C5. In the snapshot `updateStatusEmbed` builds, no key of `channelData`
occurs twice and the member list of the entry with key `k` is the list of
nicknames of the clients whose channel id is `k`, in the order of the client
list. So a client whose channel id is the id of an unfiltered channel has its
nickname in the member list of the entry keyed by that id, which is the one
entry with that key, and the member list of an entry with another key is the
list of the clients of that other channel. `inactiveChannels` is the list of
names of the unfiltered channels whose id no client has. -/
theorem snapshot_membership (channels : List Channel) (clients : List Client) :
    ((buildSnapshot channels clients).channelData.map Prod.fst).Nodup ∧
    (∀ e ∈ (buildSnapshot channels clients).channelData,
      e.2.users = (clients.filter (fun c => c.cid = e.1)).map (fun c => c.nickname)) ∧
    (∀ ch ∈ channels, isFiltered ch = false → ∀ c ∈ clients, c.cid = ch.cid →
      ∃ g, objGet (buildSnapshot channels clients).channelData c.cid = some g ∧
        g.users = (clients.filter (fun c2 => c2.cid = c.cid)).map (fun c2 => c2.nickname) ∧
        c.nickname ∈ g.users ∧
        ((buildSnapshot channels clients).channelData.filter (fun e => e.1 = c.cid)).length = 1) ∧
    (buildSnapshot channels clients).inactiveChannels =
      (channels.filter (fun ch => !isFiltered ch && !clients.any (fun c => c.cid = ch.cid))).map
        (fun ch => ch.name) := by
  obtain ⟨i1, i2, i3, i4⟩ := buildSnapshot_invariant channels clients
  have hnodup := nodup_of_keyOrder _ i1
  refine ⟨hnodup, fun e he => (i2 e he).1, ?_, i4⟩
  intro ch hch hf c hc hcid
  have hkey := i3 ch hch hf c hc hcid
  rw [← hcid] at hkey
  obtain ⟨e, he, hek⟩ := List.mem_map.mp hkey
  obtain ⟨k, g⟩ := e
  simp only at hek
  subst hek
  have husers := (i2 (c.cid, g) he).1
  simp only at husers
  refine ⟨g, objGet_of_mem _ _ _ hnodup he, husers, ?_, one_entry_of_key _ _ hnodup hkey⟩
  rw [husers]
  exact List.mem_map_of_mem _ (List.mem_filter.mpr ⟨hc, by simp⟩)

/-! ## Fingerprint -/

/-- C6. The fingerprint is a function of the snapshot: equal snapshots have
equal fingerprints. And it tells snapshots apart: snapshots with equal
fingerprints are equal, so two snapshots in which some channel id has
different member lists (other members, or the same members in another
order, or an entry in one and none in the other) have different
fingerprints, and so have two snapshots in which some channel has a member
in one that it has not in the other. -/
theorem fingerprint_stability (s1 s2 : Snapshot) :
    (s1 = s2 → fingerprint s1 = fingerprint s2) ∧
    (fingerprint s1 = fingerprint s2 → s1 = s2) ∧
    (∀ k : Nat,
      (objGet s1.channelData k).map (fun g => g.users) ≠
        (objGet s2.channelData k).map (fun g => g.users) →
      fingerprint s1 ≠ fingerprint s2) ∧
    (∀ (k : Nat) (g1 g2 : Group) (m : JSStr),
      objGet s1.channelData k = some g1 → objGet s2.channelData k = some g2 →
      m ∈ g1.users → m ∉ g2.users → fingerprint s1 ≠ fingerprint s2) := by
  refine ⟨fun h => by rw [h], fingerprint_inj s1 s2, ?_, ?_⟩
  · intro k hk hfp
    apply hk
    rw [fingerprint_inj s1 s2 hfp]
  · intro k g1 g2 m h1 h2 hm1 hm2 hfp
    have := fingerprint_inj s1 s2 hfp
    subst this
    rw [h1] at h2
    cases h2
    exact hm2 hm1

/-- Instances of `fingerprint_stability`: the fingerprint of the snapshot of
the filter example, and the fingerprints of two snapshots that differ in the
order of the members of channel 3. -/
theorem fingerprint_stability_examples :
    fingerprint (buildSnapshot sampleChannels sampleClients) =
      lit "\x7b\"channelData\":\x7b\"3\":\x7b\"name\":\"Gaming\",\"users\":[\"b\"]\x7d\x7d,\"inactiveChannels\":[]\x7d" ∧
    fingerprint { channelData := [(3, { name := lit "Gaming", users := [lit "a", lit "b"] })],
                  inactiveChannels := [] } ≠
      fingerprint { channelData := [(3, { name := lit "Gaming", users := [lit "b", lit "a"] })],
                    inactiveChannels := [] } :=
  ⟨by decide,
    (fingerprint_stability
      { channelData := [(3, { name := lit "Gaming", users := [lit "a", lit "b"] })],
        inactiveChannels := [] }
      { channelData := [(3, { name := lit "Gaming", users := [lit "b", lit "a"] })],
        inactiveChannels := [] }).2.2.1 3 (by decide)⟩

/-! ## Source unavailable -/

/-- C7, as the code has it. On a tick without a session handle, or whose
channel and client query fails, the display reference and the data file stay as
they were and Discord is not contacted for the message; but the tick still stores
the current instant in `lastEmbedEdit` and clears `pendingEmbedUpdate` whenever
its gate holds (a message id, a trigger pending or due, 5000 ms since the last
edit). With the gate closed both keep their values. -/
theorem tick_source_unavailable (s : State) (env : TickEnv)
    (h : s.tsClient = false ∨ env.embed.query = none) :
    (tick s env).1.statusEmbed = s.statusEmbed ∧
    (tick s env).1.embedDataFile = s.embedDataFile ∧
    (∀ a ∈ (tick s env).2, a.isEditAttempt = false ∧ ∀ r, a ≠ Action.writeFile r) ∧
    (tick s env).1.lastEmbedEdit =
      (if embedGate s env.now then env.finishedAt else s.lastEmbedEdit) ∧
    (tick s env).1.pendingEmbedUpdate =
      (if embedGate s env.now then false else s.pendingEmbedUpdate) := by
  obtain ⟨f1, f2, f3, f4, f5, f6⟩ := tickCount_frame s env
  obtain ⟨g1, g2⟩ := embedGate_tickCount s env
  have hskip := updateStatusEmbed_skip (tickCount s env).1 (tickForce (tickCount s env).1 env.now)
    env.embed (by rw [f5]; rcases h with h | h; exact Or.inl h; exact Or.inr (Or.inr h))
  have hcount : ∀ a ∈ (tickCount s env).2, a.isEditAttempt = false ∧ ∀ r, a ≠ Action.writeFile r := by
    intro a ha
    rcases tickCount_actions s env a ha with h | ⟨n, h⟩ <;> subst h <;> simp [Action.isEditAttempt]
  unfold tick
  simp only [g1]
  cases hg : embedGate s env.now
  · simp [f1, f2, f3, f4]
    exact hcount
  · simp only [if_true, hskip.1, f1, f2]
    refine ⟨trivial, trivial, ?_, trivial, trivial⟩
    intro a ha
    rcases List.mem_append.mp ha with ha | ha
    · exact hcount a ha
    · have := hskip.2 a ha
      subst this
      simp [Action.isEditAttempt]

/-- An instance of `tick_source_unavailable`: no session handle. -/
theorem tick_source_unavailable_witness :
    (tick { sampleState with tsClient := false } sampleTickEnv).1.statusEmbed = sampleRef ∧
    (tick { sampleState with tsClient := false } sampleTickEnv).1.pendingEmbedUpdate = false :=
  have h := tick_source_unavailable { sampleState with tsClient := false } sampleTickEnv
    (Or.inl rfl)
  ⟨h.1, by rw [h.2.2.2.2]; decide⟩

/-- C7 fails as stated: the handle is absent, a dirty trigger is pending, and
the tick at instant 20000 clears the pending flag and moves `lastEmbedEdit`
from 1000 to 20000. -/
theorem tick_source_unavailable_clears_pending :
    ({ sampleState with tsClient := false } : State).tsClient = false ∧
    ({ sampleState with tsClient := false } : State).pendingEmbedUpdate = true ∧
    (tick { sampleState with tsClient := false } sampleTickEnv).1.pendingEmbedUpdate = false ∧
    ({ sampleState with tsClient := false } : State).lastEmbedEdit = 1000 ∧
    (tick { sampleState with tsClient := false } sampleTickEnv).1.lastEmbedEdit = 20000 := by
  decide

/-! ## Count label -/

/-- The rename-rate guard admits a rename on an empty pruned history, or on a
history of one rename that is 61000 ms old or older. -/
theorem renameAllowed_iff (recent : List Int) (now : Int) :
    renameAllowed recent now = true ↔
      (recent = [] ∨ ∃ t, recent = [t] ∧ now - t ≥ 61000) := by
  unfold renameAllowed
  cases recent with
  | nil => simp
  | cons a rest =>
    cases rest with
    | nil => simp [maxTime]
    | cons b rest2 => simp

/-- The new channel name is `TeamSpeak: `, the decimal digits of the count and
the four code units 240, 376, 8220, 382. -/
theorem countChannelName_eq (count : Nat) :
    countChannelName count = lit "TeamSpeak: " ++ decimal count ++ [240, 376, 8220, 382] := by
  rfl

/-- What `updateCountChannelName` does, case by case. Without the count channel
or the session handle it does nothing; when the query fails, or the count
equals `lastCount`, it leaves the state as it was. Otherwise it prunes the
history to the last 600000 ms; when the rename-rate guard refuses, that is all;
when the guard admits the rename, `lastCount` is set to the new count and
`setName` is called, and the instant is appended to the history exactly when
`setName` resolves. -/
theorem updateCountChannelName_effect (s : State) (env : CountEnv)
    (channels : List Channel) (clients : List Client) :
    ((s.countChannel = false ∨ s.tsClient = false) → updateCountChannelName s env = (s, [])) ∧
    (s.countChannel = true → s.tsClient = true → env.query = none →
      updateCountChannelName s env = (s, [Action.queryTeamSpeak])) ∧
    (s.countChannel = true → s.tsClient = true → env.query = some (channels, clients) →
      (s.lastCount = some (occupantCount channels clients) →
        updateCountChannelName s env = (s, [Action.queryTeamSpeak])) ∧
      (s.lastCount ≠ some (occupantCount channels clients) →
        renameAllowed (s.recentRenames.filter (fun time => env.now - time < 600000)) env.now
          = false →
        updateCountChannelName s env =
          ({ s with recentRenames := s.recentRenames.filter (fun time => env.now - time < 600000) },
            [Action.queryTeamSpeak])) ∧
      (s.lastCount ≠ some (occupantCount channels clients) →
        renameAllowed (s.recentRenames.filter (fun time => env.now - time < 600000)) env.now
          = true →
        updateCountChannelName s env =
          ({ s with
              recentRenames := s.recentRenames.filter (fun time => env.now - time < 600000) ++
                (if env.setNameOk then [env.now] else []),
              lastCount := some (occupantCount channels clients) },
            [Action.queryTeamSpeak,
              Action.setName (countChannelName (occupantCount channels clients))]))) := by
  refine ⟨?_, ?_, ?_⟩
  · intro h
    unfold updateCountChannelName
    rcases h with h | h <;> simp [h]
  · intro h1 h2 hq
    unfold updateCountChannelName
    simp [h1, h2, hq]
  · intro h1 h2 hq
    refine ⟨?_, ?_, ?_⟩
    · intro hc
      unfold updateCountChannelName
      simp [h1, h2, hq, hc]
    · intro hc hg
      unfold updateCountChannelName
      simp only [h1, h2, hq, Bool.not_true, Bool.or_self, Bool.false_eq_true, if_false]
      rw [if_neg hc]
      simp only [hg, Bool.false_eq_true, if_false]
    · intro hc hg
      unfold updateCountChannelName
      simp only [h1, h2, hq, Bool.not_true, Bool.or_self, Bool.false_eq_true, if_false]
      rw [if_neg hc]
      cases hok : env.setNameOk <;> simp [hg]

/-- C8, the code at the failing input. The bot has the count channel and the
session handle, `lastCount` is 0 and the rename history is empty; the query
finds one occupant, the guard admits the rename, and `setName` rejects. Then
`lastCount` is 1 afterwards, although the channel was not renamed and no
timestamp was recorded; and a further run that finds the same single occupant
returns at the `lastCount === count` test without calling `setName`, so the
rename is not tried again. -/
theorem updateCountChannelName_failed_rename_keeps_new_count :
    sampleState.countChannel = true ∧ sampleState.tsClient = true ∧
    sampleState.lastCount = some 0 ∧ sampleState.recentRenames = [] ∧
    occupantCount sampleChannels sampleClients = 1 ∧
    renameAllowed [] 20000 = true ∧
    updateCountChannelName sampleState { sampleCountEnv with setNameOk := false } =
      ({ sampleState with lastCount := some 1 },
        [Action.queryTeamSpeak,
          Action.setName (lit "TeamSpeak: 1" ++ [240, 376, 8220, 382])]) ∧
    updateCountChannelName { sampleState with lastCount := some 1 }
        { sampleCountEnv with now := 90000 } =
      ({ sampleState with lastCount := some 1 }, [Action.queryTeamSpeak]) := by
  decide

/-! ## Recovery after restart -/

/-- Actions of a tick address the stored message and create none. -/
theorem tick_targets (s : State) (env : TickEnv) (a : Action) (ha : a ∈ (tick s env).2) :
    a ≠ Action.sendMessage ∧
    (∀ c, a = Action.fetchChannel c → c = s.statusEmbed.channelId) ∧
    (∀ m, a = Action.fetchMessage m → m = s.statusEmbed.messageId) ∧
    (∀ m f, a = Action.editMessage m f → m = s.statusEmbed.messageId) := by
  have hcount : ∀ a ∈ (tickCount s env).2, a ≠ Action.sendMessage ∧
      (∀ c, a = Action.fetchChannel c → c = s.statusEmbed.channelId) ∧
      (∀ m, a = Action.fetchMessage m → m = s.statusEmbed.messageId) ∧
      (∀ m f, a = Action.editMessage m f → m = s.statusEmbed.messageId) := by
    intro a ha
    rcases tickCount_actions s env a ha with h | ⟨n, h⟩ <;> subst h <;> simp
  by_cases hg : embedGate (tickCount s env).1 env.now = true
  · simp only [tick, hg, if_true] at ha
    rcases List.mem_append.mp ha with ha | ha
    · exact hcount a ha
    · obtain ⟨t1, _, t3, t4, t5⟩ := updateStatusEmbed_targets _ _ _ a ha
      rw [(tickCount_frame s env).1] at t3 t4 t5
      exact ⟨t1, t3, t4, t5⟩
  · simp only [tick, hg] at ha
    exact hcount a ha

/-- A tick on a connected session whose gate holds, whose query is answered,
whose update is forced or finds a changed fingerprint, and which finds the
channel and the message, edits the stored message with the current snapshot. -/
theorem tick_edits (s : State) (env : TickEnv) (channels : List Channel) (clients : List Client)
    (hts : s.tsClient = true) (hg : embedGate s env.now = true)
    (hq : env.embed.query = some (channels, clients))
    (hf : tickForce s env.now = true ∨
      s.statusEmbed.lastState ≠ JSVal.val (fingerprint (buildSnapshot channels clients)))
    (hcf : env.embed.channelFound = true) (hmf : env.embed.messageFound = true) :
    Action.editMessage s.statusEmbed.messageId (embedFields (buildSnapshot channels clients)) ∈
      (tick s env).2 := by
  have hm : s.statusEmbed.messageId.truthy = true := by
    cases h : s.statusEmbed.messageId.truthy
    · simp [embedGate, h] at hg
    · rfl
  obtain ⟨f1, _, _, _, f5, _⟩ := tickCount_frame s env
  obtain ⟨g1, g2⟩ := embedGate_tickCount s env
  unfold tick
  simp only [g1, g2, hg, if_true]
  apply List.mem_append_right
  have hcond : ¬ ((!tickForce s env.now &&
      decide (s.statusEmbed.lastState =
        JSVal.val (fingerprint (buildSnapshot channels clients)))) = true) := by
    rcases hf with h | h
    · simp [h]
    · simp [h]
  unfold updateStatusEmbed
  simp only [f5, hts, f1, hm, hq]
  simp only [Bool.not_true, Bool.or_self, Bool.false_eq_true, if_false]
  rw [if_neg hcond]
  cases heo : env.embed.editOk <;>
    simp [applyEdit, hcf, hmf, heo, markRendered, resetEmbedStatus, saveEmbedData, f1]

/-- C9. Let the display reference have a non-empty message id and channel id
and let `saveEmbedData` write it. A fresh process that runs `loadEmbedData` on
that file gets the same display reference (message id, channel id, guild id,
last state, last update) and the result `true`. The message id check of the
scheduler tick then passes; whatever a tick fetches or edits is the saved
channel and message, and it sends no new message; and once the session is
connected, a tick whose gate holds and whose external calls succeed edits
that message with the current snapshot. When there is no file, `loadEmbedData`
leaves the empty display reference and returns `false`. -/
theorem loadEmbedData_recovers (s fresh : State) (env : TickEnv)
    (channels : List Channel) (clients : List Client)
    (hm : s.statusEmbed.messageId.truthy = true) (hc : s.statusEmbed.channelId.truthy = true) :
    loadEmbedData { fresh with embedDataFile := (saveEmbedData s true).1.embedDataFile } =
      ({ fresh with embedDataFile := File.record s.statusEmbed, statusEmbed := s.statusEmbed },
        true) ∧
    (loadEmbedData { fresh with embedDataFile := (saveEmbedData s true).1.embedDataFile }
      ).1.statusEmbed.messageId.truthy = true ∧
    (∀ a ∈ (tick (loadEmbedData
        { fresh with embedDataFile := (saveEmbedData s true).1.embedDataFile }).1 env).2,
      a ≠ Action.sendMessage ∧
      (∀ c, a = Action.fetchChannel c → c = s.statusEmbed.channelId) ∧
      (∀ m, a = Action.fetchMessage m → m = s.statusEmbed.messageId) ∧
      (∀ m f, a = Action.editMessage m f → m = s.statusEmbed.messageId)) ∧
    (embedGate { fresh with statusEmbed := s.statusEmbed } env.now = true →
      env.embed.query = some (channels, clients) →
      (tickForce { fresh with statusEmbed := s.statusEmbed } env.now = true ∨
        s.statusEmbed.lastState ≠ JSVal.val (fingerprint (buildSnapshot channels clients))) →
      env.embed.channelFound = true → env.embed.messageFound = true →
      Action.editMessage s.statusEmbed.messageId (embedFields (buildSnapshot channels clients)) ∈
        (tick { (loadEmbedData
          { fresh with embedDataFile := (saveEmbedData s true).1.embedDataFile }).1 with
          tsClient := true } env).2) ∧
    loadEmbedData { fresh with embedDataFile := File.missing } =
      ({ fresh with embedDataFile := File.missing, statusEmbed := DisplayRef.empty }, false) := by
  have hload : loadEmbedData { fresh with embedDataFile := (saveEmbedData s true).1.embedDataFile } =
      ({ fresh with embedDataFile := File.record s.statusEmbed, statusEmbed := s.statusEmbed },
        true) := by
    simp [loadEmbedData, saveEmbedData, hm, hc]
  refine ⟨hload, by rw [hload]; exact hm, ?_, ?_, by simp [loadEmbedData]⟩
  · intro a ha
    have := tick_targets _ env a ha
    rw [hload] at this
    exact this
  · intro hg hq hf hcf hmf
    rw [hload]
    exact tick_edits _ env channels clients rfl (by simpa [embedGate] using hg) hq
      (by simpa [tickForce] using hf) hcf hmf

/-- An instance of `loadEmbedData_recovers`. -/
theorem loadEmbedData_recovers_witness :
    loadEmbedData { State.initial File.missing with
        embedDataFile := (saveEmbedData sampleState true).1.embedDataFile } =
      ({ State.initial File.missing with
          embedDataFile := File.record sampleRef, statusEmbed := sampleRef }, true) :=
  (loadEmbedData_recovers sampleState (State.initial File.missing) sampleTickEnv
    sampleChannels sampleClients (by decide) (by decide)).1

/-! ## Name truncation -/

/-- C10. With the maximum length 15, `formatUsername` returns `- ` followed by
the username when it has at most 15 code units, and otherwise `- ` followed by
its first 15 code units and `...`; the result has at most 20 code units. The
value of the field rendered for a group with members is the list of its
members, each formatted by `formatUsername`, joined by line feeds. -/
theorem formatUsername_truncation (username : JSStr) (channel : Group) :
    CONFIG_maxUsernameLength = 15 ∧
    formatUsername username =
      (if username.length ≤ CONFIG_maxUsernameLength then lit "- " ++ username
       else lit "- " ++ (username.take CONFIG_maxUsernameLength ++ lit "...")) ∧
    (formatUsername username).length ≤ 2 + CONFIG_maxUsernameLength + 3 ∧
    (groupField channel).value =
      (if channel.users = [] then lit "Empty"
       else join (lit "\n") (channel.users.map formatUsername)) := by
  have hdash : (lit "- ").length = 2 := by decide
  have hdots : (lit "...").length = 3 := by decide
  refine ⟨rfl, ?_, ?_, ?_⟩
  · unfold formatUsername
    by_cases h : username.length ≤ CONFIG_maxUsernameLength
    · have h2 : ¬ username.length > CONFIG_maxUsernameLength := by omega
      simp [h, h2]
    · have h2 : username.length > CONFIG_maxUsernameLength := by omega
      simp [h, h2]
  · unfold formatUsername
    by_cases h : username.length > CONFIG_maxUsernameLength
    · simp only [h, if_true, List.length_append, List.length_take, hdash, hdots]
      omega
    · simp only [h, if_false, List.length_append, hdash]
      omega
  · unfold groupField
    cases hu : channel.users with
    | nil => simp
    | cons a t => simp

/-- Instances of `formatUsername_truncation`: names of 5, 15 and 16 code units. -/
theorem formatUsername_truncation_examples :
    formatUsername (lit "Alice") = lit "- Alice" ∧
    formatUsername (lit "ABCDEFGHIJKLMNO") = lit "- ABCDEFGHIJKLMNO" ∧
    formatUsername (lit "ABCDEFGHIJKLMNOP") = lit "- ABCDEFGHIJKLMNO..." := by
  decide

end TS3Status
